import Mathlib

/-!
Verification of the offline-first sync engine of this repository.

The definitions below are a shallow embedding of the TypeScript source:
  * `mergeItems`, `applyDeletionsToLocal`, `flattenData`, `constructData`,
    and the pure merge phase of `manualSync` come from `src/unnamed/part_000`
    (the `useSync` hook module);
  * `deleteDataFromSupabase` and the orphan filters of `upsertDataToSupabase`
    come from `src/hooks/useOnlineData.ts`;
  * `cleanupCloudStorage` comes from `src/unnamed/part_000` (the local-data
    hook module).

Records flowing through the sync pipeline are loosely typed in the source
(`any[]` tables, `item.id ?? item.name` probing).  They are embedded as a
single structure `Rec` of the fields the sync code reads, all optional,
plus an opaque `payload` standing for every other field of the record.
Timestamps (`updated_at`, tombstone `deleted_at`) are epoch milliseconds,
embedded as `Int` (the source calls `new Date(x).getTime()` before every
comparison; absent values are coerced to epoch 0 by `new Date(x || 0)`).
JavaScript `Map`s are embedded as insertion-ordered association lists with
`Map.set` / `Map.get` / `Map.has` semantics.
-/

/-- A loosely-typed record of one sync table: the fields the sync engine
reads, plus `payload` standing for all remaining fields. -/
structure Rec where
  id : Option String := none
  name : Option String := none
  updated_at : Option Int := none
  client_id : Option String := none
  case_id : Option String := none
  stage_id : Option String := none
  invoice_id : Option String := none
  caseId : Option String := none
  clientId : Option String := none
  payload : Nat := 0
deriving Repr, DecidableEq

/-- JS `item.id ?? item.name` (nullish coalescing). -/
def jsId (item : Rec) : Option String :=
  item.id.or item.name

/-- The primary-key extractor `getPk` of `mergeItems` (src/unnamed/part_000
line 94): `item.id`, else `item.name`, else the empty string, stringified. -/
def getPk (item : Rec) : String :=
  (jsId item).getD ""

/-- JS `new Date(item.updated_at || 0).getTime()`: absent timestamp is epoch. -/
def updMs (item : Rec) : Int :=
  item.updated_at.getD 0

/-- JS `Map.set m k v`: overwrite in place if `k` is present, else append. -/
def jsMapSet {κ α : Type} [BEq κ] (m : List (κ × α)) (k : κ) (v : α) :
    List (κ × α) :=
  if m.any (fun p => p.1 == k) then
    m.map (fun p => if p.1 == k then (k, v) else p)
  else m ++ [(k, v)]

/-- JS `Map.has`. -/
def jsMapHas {κ α : Type} [BEq κ] (m : List (κ × α)) (k : κ) : Bool :=
  m.any (fun p => p.1 == k)

/-- JS `Map.get` (first entry wins; entries are kept key-unique by `jsMapSet`). -/
def jsMapGet {κ α : Type} [BEq κ] (m : List (κ × α)) (k : κ) : Option α :=
  (m.find? (fun p => p.1 == k)).map (fun p => p.2)

/-- JS `if (!m.has(k)) m.set(k, []); m.get(k).push(v)` — the grouping idiom
of `constructData`. -/
def jsGroupPush {κ α : Type} [BEq κ] (m : List (κ × List α)) (k : κ)
    (v : α) : List (κ × List α) :=
  if m.any (fun p => p.1 == k) then
    m.map (fun p => if p.1 == k then (p.1, p.2 ++ [v]) else p)
  else m ++ [(k, [v])]

/-- JS `Array.from(new Set(l))`: first-occurrence-order deduplication. -/
def jsSetDedup {α : Type} [BEq α] (l : List α) : List α :=
  l.foldl (fun acc a => if acc.contains a then acc else acc ++ [a]) []

/-- Pass 1 of `mergeItems` (src/unnamed/part_000 lines 96-120): walk the
local records, skipping empty and tombstoned keys; on a remote match keep
whichever side wins the 1000 ms last-writer-wins comparison, pushing the
local record only when it wins; with no remote match keep and push the
local record.  The accumulator is the JS `finalMap` plus `toUpsert`. -/
def mergePass1 (remoteL : List Rec) (deletedSet : List String)
    (tableName : String) :
    List Rec → List (String × Rec) × List Rec → List (String × Rec) × List Rec
  | [], acc => acc
  | localItem :: rest, (fm, up) =>
    let i := getPk localItem
    if i = "" then mergePass1 remoteL deletedSet tableName rest (fm, up)
    else if deletedSet.contains (tableName ++ ":" ++ i) then
      mergePass1 remoteL deletedSet tableName rest (fm, up)
    else
      match remoteL.find? (fun r => getPk r == i) with
      | some remoteItem =>
        if updMs remoteItem + 1000 < updMs localItem then
          mergePass1 remoteL deletedSet tableName rest
            (jsMapSet fm i localItem, up ++ [localItem])
        else
          mergePass1 remoteL deletedSet tableName rest
            (jsMapSet fm i remoteItem, up)
      | none =>
        mergePass1 remoteL deletedSet tableName rest
          (jsMapSet fm i localItem, up ++ [localItem])

/-- Pass 2 of `mergeItems` (src/unnamed/part_000 lines 122-131): add each
remote record whose key is non-empty, not already resolved and not
tombstoned. -/
def mergePass2 (deletedSet : List String) (tableName : String) :
    List Rec → List (String × Rec) → List (String × Rec)
  | [], fm => fm
  | remoteItem :: rest, fm =>
    let i := getPk remoteItem
    if i = "" then mergePass2 deletedSet tableName rest fm
    else if jsMapHas fm i then mergePass2 deletedSet tableName rest fm
    else if deletedSet.contains (tableName ++ ":" ++ i) then
      mergePass2 deletedSet tableName rest fm
    else mergePass2 deletedSet tableName rest (jsMapSet fm i remoteItem)

/-- Result of the per-table merge: the deduplicated table and the subset to
push. -/
structure MergeResult where
  merged : List Rec
  toUpsert : List Rec
deriving Repr, DecidableEq

/-- The per-table merge `mergeItems` (src/unnamed/part_000 lines 90-134). -/
def mergeItems (localL remoteL : List Rec) (deletedSet : List String)
    (tableName : String) : MergeResult :=
  let acc := mergePass1 remoteL deletedSet tableName localL ([], [])
  let fm2 := mergePass2 deletedSet tableName remoteL acc.1
  { merged := fm2.map (fun p => p.2), toUpsert := acc.2 }

example :
    mergeItems [{ id := some "a", updated_at := some 2500 }]
      [{ id := some "a", updated_at := some 1000, payload := 7 }] [] "clients" =
    { merged := [{ id := some "a", updated_at := some 2500 }],
      toUpsert := [{ id := some "a", updated_at := some 2500 }] } := by
  decide

example :
    mergeItems [{ id := some "a", updated_at := some 1500 }]
      [{ id := some "a", updated_at := some 1000, payload := 7 }] [] "clients" =
    { merged := [{ id := some "a", updated_at := some 1000, payload := 7 }],
      toUpsert := [] } := by
  decide

example :
    mergeItems [{ id := some "a", updated_at := some 9999 }]
      [{ id := some "b", updated_at := some 1, payload := 7 }]
      ["clients:a"] "clients" =
    { merged := [{ id := some "b", updated_at := some 1, payload := 7 }],
      toUpsert := [] } := by
  decide

/-- One flat table set, mirroring the `FlatData` type of
src/hooks/useOnlineData.ts (every table embedded as a list of `Rec`). -/
structure FlatData where
  clients : List Rec := []
  cases : List Rec := []
  stages : List Rec := []
  sessions : List Rec := []
  admin_tasks : List Rec := []
  appointments : List Rec := []
  accounting_entries : List Rec := []
  assistants : List Rec := []
  invoices : List Rec := []
  invoice_items : List Rec := []
  case_documents : List Rec := []
  profiles : List Rec := []
  site_finances : List Rec := []
deriving Repr, DecidableEq

/-- The thirteen sync tables, used to quantify per-table statements. -/
inductive Tbl
  | clients | cases | stages | sessions | admin_tasks | appointments
  | accounting_entries | assistants | invoices | invoice_items
  | case_documents | profiles | site_finances
deriving Repr, DecidableEq

/-- The database-side name of a table, as used in tombstone keys. -/
def Tbl.tblName : Tbl → String
  | .clients => "clients"
  | .cases => "cases"
  | .stages => "stages"
  | .sessions => "sessions"
  | .admin_tasks => "admin_tasks"
  | .appointments => "appointments"
  | .accounting_entries => "accounting_entries"
  | .assistants => "assistants"
  | .invoices => "invoices"
  | .invoice_items => "invoice_items"
  | .case_documents => "case_documents"
  | .profiles => "profiles"
  | .site_finances => "site_finances"

/-- Project one table out of a `FlatData`. -/
def FlatData.get (fd : FlatData) : Tbl → List Rec
  | .clients => fd.clients
  | .cases => fd.cases
  | .stages => fd.stages
  | .sessions => fd.sessions
  | .admin_tasks => fd.admin_tasks
  | .appointments => fd.appointments
  | .accounting_entries => fd.accounting_entries
  | .assistants => fd.assistants
  | .invoices => fd.invoices
  | .invoice_items => fd.invoice_items
  | .case_documents => fd.case_documents
  | .profiles => fd.profiles
  | .site_finances => fd.site_finances

/-- JS `(deletions as any)[table]` — string-keyed table access, as
`deleteDataFromSupabase` performs it (missing property reads as `[]`). -/
def FlatData.tblByName (fd : FlatData) (table : String) : List Rec :=
  if table = "clients" then fd.clients
  else if table = "cases" then fd.cases
  else if table = "stages" then fd.stages
  else if table = "sessions" then fd.sessions
  else if table = "admin_tasks" then fd.admin_tasks
  else if table = "appointments" then fd.appointments
  else if table = "accounting_entries" then fd.accounting_entries
  else if table = "assistants" then fd.assistants
  else if table = "invoices" then fd.invoices
  else if table = "invoice_items" then fd.invoice_items
  else if table = "case_documents" then fd.case_documents
  else if table = "profiles" then fd.profiles
  else if table = "site_finances" then fd.site_finances
  else []

/-- A remote deletion tombstone (`SyncDeletion` of src/types): `deleted_at`
is the epoch-milliseconds value of the stored ISO timestamp. -/
structure SyncDeletion where
  table_name : String
  record_id : String
  deleted_at : Int
deriving Repr, DecidableEq

/-- The `deletionMap` of `applyDeletionsToLocal` (src/unnamed/part_000
lines 140-143): `Table:RecordID -> deleted_at`, later tombstones
overwriting earlier ones. -/
def deletionMapOf (deletions : List SyncDeletion) : List (String × Int) :=
  deletions.foldl
    (fun m d => jsMapSet m (d.table_name ++ ":" ++ d.record_id) d.deleted_at) []

/-- The `filterItems` helper of `applyDeletionsToLocal` (src/unnamed/part_000 lines
145-159): purge a record matched by a tombstone unless it was updated at
least 2000 ms after the deletion.  A record with neither `id` nor `name`
builds the JS key `"table:undefined"`. -/
def filterItems (deletionMap : List (String × Int)) (items : List Rec)
    (tableName : String) : List Rec :=
  items.filter (fun item =>
    let key := tableName ++ ":" ++ ((jsId item).getD "undefined")
    match jsMapGet deletionMap key with
    | some deletedAt => !(updMs item < deletedAt + 2000)
    | none => true)

/-- The tombstone purge `applyDeletionsToLocal` (src/unnamed/part_000 lines 137-186): per-table
tombstone purge followed by the cascade orphan filter (children of a purged
parent are dropped as well); `profiles` is passed through unchanged. -/
def applyDeletionsToLocal (localFlatData : FlatData)
    (deletions : List SyncDeletion) : FlatData :=
  if deletions.isEmpty then localFlatData else
  let dm := deletionMapOf deletions
  let clients := filterItems dm localFlatData.clients "clients"
  let clientIds := clients.map (fun c => c.id)
  let cases := (filterItems dm localFlatData.cases "cases").filter
    (fun c => clientIds.contains c.client_id)
  let caseIds := cases.map (fun c => c.id)
  let stages := (filterItems dm localFlatData.stages "stages").filter
    (fun s => caseIds.contains s.case_id)
  let stageIds := stages.map (fun s => s.id)
  let sessions := (filterItems dm localFlatData.sessions "sessions").filter
    (fun s => stageIds.contains s.stage_id)
  let invoices := (filterItems dm localFlatData.invoices "invoices").filter
    (fun i => clientIds.contains i.client_id)
  let invoiceIds := invoices.map (fun i => i.id)
  let invoice_items :=
    (filterItems dm localFlatData.invoice_items "invoice_items").filter
      (fun i => invoiceIds.contains i.invoice_id)
  let case_documents :=
    (filterItems dm localFlatData.case_documents "case_documents").filter
      (fun d => caseIds.contains d.caseId)
  let accounting_entries :=
    (filterItems dm localFlatData.accounting_entries "accounting_entries").filter
      (fun e => ((e.clientId).getD "" == "") || clientIds.contains e.clientId)
  { localFlatData with
    clients := clients, cases := cases, stages := stages, sessions := sessions,
    invoices := invoices, invoice_items := invoice_items,
    case_documents := case_documents, accounting_entries := accounting_entries,
    admin_tasks := filterItems dm localFlatData.admin_tasks "admin_tasks",
    appointments := filterItems dm localFlatData.appointments "appointments",
    assistants := filterItems dm localFlatData.assistants "assistants",
    site_finances := filterItems dm localFlatData.site_finances "site_finances",
    profiles := localFlatData.profiles }

/-- The per-entity pending-deletion id lists (`DeletedIds` of src/types). -/
structure DeletedIds where
  clients : List String := []
  cases : List String := []
  stages : List String := []
  sessions : List String := []
  adminTasks : List String := []
  appointments : List String := []
  accountingEntries : List String := []
  assistants : List String := []
  invoices : List String := []
  invoiceItems : List String := []
  documents : List String := []
  siteFinances : List String := []
  documentPaths : List String := []
deriving Repr, DecidableEq

/-- The `getInitialDeletedIds` value (src/types, all lists empty). -/
def initialDeletedIds : DeletedIds := {}

/-- The `deletedKeys` set of `manualSync` (src/unnamed/part_000 lines
221-227): every remote tombstone key plus every locally pending deletion
id, the camelCase field names mapped to database table names exactly as
the source maps them (note `documents` and `documentPaths` are NOT mapped
to `case_documents`). -/
def deletedKeysOf (remoteDeletions : List SyncDeletion) (ids : DeletedIds) :
    List String :=
  remoteDeletions.map (fun d => d.table_name ++ ":" ++ d.record_id)
    ++ ids.clients.map (fun i => "clients:" ++ i)
    ++ ids.cases.map (fun i => "cases:" ++ i)
    ++ ids.stages.map (fun i => "stages:" ++ i)
    ++ ids.sessions.map (fun i => "sessions:" ++ i)
    ++ ids.adminTasks.map (fun i => "admin_tasks:" ++ i)
    ++ ids.appointments.map (fun i => "appointments:" ++ i)
    ++ ids.accountingEntries.map (fun i => "accounting_entries:" ++ i)
    ++ ids.assistants.map (fun i => "assistants:" ++ i)
    ++ ids.invoices.map (fun i => "invoices:" ++ i)
    ++ ids.invoiceItems.map (fun i => "invoice_items:" ++ i)
    ++ ids.documents.map (fun i => "documents:" ++ i)
    ++ ids.siteFinances.map (fun i => "site_finances:" ++ i)
    ++ ids.documentPaths.map (fun i => "documentPaths:" ++ i)

/-- The reconcile phase of `manualSync` (src/unnamed/part_000 lines
219-247): apply the tombstone purge to the flattened local snapshot, then
merge every table against the remote snapshot, scoped by `deletedKeys`. -/
structure SyncMergeResult where
  mergedFlat : FlatData
  flatUpserts : FlatData
deriving Repr, DecidableEq

/-- Per-table body of the `for (const table of tables)` loop of
`manualSync`. -/
def syncMergeTable (localFiltered remoteFlat : FlatData)
    (deletedKeys : List String) (t : Tbl) : MergeResult :=
  mergeItems (localFiltered.get t) (remoteFlat.get t) deletedKeys t.tblName

/-- The whole reconcile phase, every table merged. -/
def syncMergePhase (localFlat remoteFlat : FlatData)
    (remoteDeletions : List SyncDeletion) (ids : DeletedIds) :
    SyncMergeResult :=
  let localFiltered := applyDeletionsToLocal localFlat remoteDeletions
  let dk := deletedKeysOf remoteDeletions ids
  let m := fun t => syncMergeTable localFiltered remoteFlat dk t
  { mergedFlat :=
    { clients := (m .clients).merged, cases := (m .cases).merged,
      stages := (m .stages).merged, sessions := (m .sessions).merged,
      admin_tasks := (m .admin_tasks).merged,
      appointments := (m .appointments).merged,
      accounting_entries := (m .accounting_entries).merged,
      assistants := (m .assistants).merged, invoices := (m .invoices).merged,
      invoice_items := (m .invoice_items).merged,
      case_documents := (m .case_documents).merged,
      profiles := (m .profiles).merged,
      site_finances := (m .site_finances).merged }
    flatUpserts :=
    { clients := (m .clients).toUpsert, cases := (m .cases).toUpsert,
      stages := (m .stages).toUpsert, sessions := (m .sessions).toUpsert,
      admin_tasks := (m .admin_tasks).toUpsert,
      appointments := (m .appointments).toUpsert,
      accounting_entries := (m .accounting_entries).toUpsert,
      assistants := (m .assistants).toUpsert,
      invoices := (m .invoices).toUpsert,
      invoice_items := (m .invoice_items).toUpsert,
      case_documents := (m .case_documents).toUpsert,
      profiles := (m .profiles).toUpsert,
      site_finances := (m .site_finances).toUpsert } }

/-- Every entry the merge map can hold for a good reason: non-empty key,
key not tombstoned, and the stored record keyed by its own primary key. -/
def goodEntry (deletedSet : List String) (tableName : String)
    (p : String × Rec) : Prop :=
  p.1 ≠ "" ∧ deletedSet.contains (tableName ++ ":" ++ p.1) = false ∧
    getPk p.2 = p.1

/-- What pass 1 stores in `finalMap` for one local record. -/
def resolveLocal (remoteL : List Rec) (ds : List String) (tn : String)
    (l : Rec) : Option (String × Rec) :=
  let i := getPk l
  if i = "" then none
  else if ds.contains (tn ++ ":" ++ i) then none
  else
    match remoteL.find? (fun r => getPk r == i) with
    | some r => if updMs r + 1000 < updMs l then some (i, l) else some (i, r)
    | none => some (i, l)

/-- What pass 1 pushes to `toUpsert` for one local record. -/
def pushLocal (remoteL : List Rec) (ds : List String) (tn : String)
    (l : Rec) : Option Rec :=
  let i := getPk l
  if i = "" then none
  else if ds.contains (tn ++ ":" ++ i) then none
  else
    match remoteL.find? (fun r => getPk r == i) with
    | some r => if updMs r + 1000 < updMs l then some l else none
    | none => some l

/-- A nested stage: its flat record plus its `sessions` array (a session
carries no children, so it is a bare `Rec`). -/
structure Stage where
  row : Rec
  sessions : List Rec
deriving Repr, DecidableEq

/-- A nested case: its flat record plus its `stages` array. -/
structure Case where
  row : Rec
  stages : List Stage
deriving Repr, DecidableEq

/-- A nested client: its flat record plus its `cases` array. -/
structure Client where
  row : Rec
  cases : List Case
deriving Repr, DecidableEq

/-- A nested invoice: its flat record plus its `items` array. -/
structure Invoice where
  row : Rec
  items : List Rec
deriving Repr, DecidableEq

/-- The nested domain tree (`AppData` of src/types): clients own cases own
stages own sessions; invoices own items; the rest are flat lists. -/
structure AppData where
  clients : List Client := []
  adminTasks : List Rec := []
  appointments : List Rec := []
  accountingEntries : List Rec := []
  invoices : List Invoice := []
  assistants : List String := []
  documents : List Rec := []
  profiles : List Rec := []
  siteFinances : List Rec := []
deriving Repr, DecidableEq

/-- The tree flattener `flattenData` (src/unnamed/part_000 lines 23-44): inject the parent id
as a foreign key on every child record, strip the nested-children arrays,
and wrap assistant names as `{ name }` records. -/
def flattenData (data : AppData) : FlatData :=
  let cases := data.clients.flatMap (fun c =>
    c.cases.map (fun cs => { cs with row := { cs.row with client_id := c.row.id } }))
  let stages := cases.flatMap (fun cs =>
    cs.stages.map (fun st => { st with row := { st.row with case_id := cs.row.id } }))
  let sessions := stages.flatMap (fun st =>
    st.sessions.map (fun s => { s with stage_id := st.row.id }))
  let invoice_items := data.invoices.flatMap (fun inv =>
    inv.items.map (fun item => { item with invoice_id := inv.row.id }))
  { clients := data.clients.map (fun c => c.row)
    cases := cases.map (fun cs => cs.row)
    stages := stages.map (fun st => st.row)
    sessions := sessions
    admin_tasks := data.adminTasks
    appointments := data.appointments
    accounting_entries := data.accountingEntries
    assistants := data.assistants.map (fun n => { name := some n })
    invoices := data.invoices.map (fun inv => inv.row)
    invoice_items := invoice_items
    case_documents := data.documents
    profiles := data.profiles
    site_finances := data.siteFinances }

/-- The `sessionMap` of `constructData` (src/unnamed/part_000 lines
47-52): sessions grouped by `stage_id`. -/
def sessionMapOf (flatData : FlatData) : List (Option String × List Rec) :=
  flatData.sessions.foldl (fun m s => jsGroupPush m s.stage_id s) []

/-- The `stageMap` of `constructData` (lines 54-60): stages rebuilt with
their session group and grouped by `case_id`. -/
def stageMapOf (flatData : FlatData) : List (Option String × List Stage) :=
  flatData.stages.foldl
    (fun m st => jsGroupPush m st.case_id
      ({ row := st,
         sessions := (jsMapGet (sessionMapOf flatData) st.id).getD [] } : Stage)) []

/-- The `caseMap` of `constructData` (lines 62-68): cases rebuilt with
their stage group and grouped by `client_id`. -/
def caseMapOf (flatData : FlatData) : List (Option String × List Case) :=
  flatData.cases.foldl
    (fun m cs => jsGroupPush m cs.client_id
      ({ row := cs,
         stages := (jsMapGet (stageMapOf flatData) cs.id).getD [] } : Case)) []

/-- The `invoiceItemMap` of `constructData` (lines 70-75): invoice items
grouped by `invoice_id`. -/
def invoiceItemMapOf (flatData : FlatData) : List (Option String × List Rec) :=
  flatData.invoice_items.foldl (fun m item => jsGroupPush m item.invoice_id item) []

/-- The tree reconstructor `constructData` (src/unnamed/part_000 lines 46-88): group each child
table by its parent foreign key into insertion-ordered maps, then attach
the groups back onto the parents, innermost first; assistants are
deduplicated (`new Set`) and falsy names dropped (`filter(Boolean)`). -/
def constructData (flatData : FlatData) : AppData :=
  { clients := flatData.clients.map
      (fun c => { row := c, cases := (jsMapGet (caseMapOf flatData) c.id).getD [] })
    adminTasks := flatData.admin_tasks
    appointments := flatData.appointments
    accountingEntries := flatData.accounting_entries
    assistants := (jsSetDedup (flatData.assistants.map (fun a => a.name))).filterMap
      (fun o => match o with
        | some s => if s = "" then none else some s
        | none => none)
    invoices := flatData.invoices.map
      (fun inv => { row := inv,
                    items := (jsMapGet (invoiceItemMapOf flatData) inv.id).getD [] })
    documents := flatData.case_documents
    profiles := flatData.profiles
    siteFinances := flatData.site_finances }

example :
    constructData (flattenData
      { clients := [{ row := { id := some "c1", payload := 1 },
                      cases := [{ row := { id := some "k1", client_id := some "c1", payload := 2 },
                                  stages := [{ row := { id := some "s1", case_id := some "k1", payload := 3 },
                                               sessions := [{ id := some "x1", stage_id := some "s1", payload := 4 }] }] }] }],
        invoices := [{ row := { id := some "i1", payload := 5 },
                       items := [{ id := some "t1", invoice_id := some "i1", payload := 6 }] }],
        assistants := ["A", "B"] }) =
    { clients := [{ row := { id := some "c1", payload := 1 },
                    cases := [{ row := { id := some "k1", client_id := some "c1", payload := 2 },
                                stages := [{ row := { id := some "s1", case_id := some "k1", payload := 3 },
                                             sessions := [{ id := some "x1", stage_id := some "s1", payload := 4 }] }] }] }],
      invoices := [{ row := { id := some "i1", payload := 5 },
                     items := [{ id := some "t1", invoice_id := some "i1", payload := 6 }] }],
      assistants := ["A", "B"] } := by
  decide

/-- All cases of the tree, in client order. -/
def allCases (data : AppData) : List Case :=
  data.clients.flatMap (fun c => c.cases)

/-- All stages of the tree, in case order. -/
def allStages (data : AppData) : List Stage :=
  (allCases data).flatMap (fun cs => cs.stages)

/-- All sessions of the tree, in stage order. -/
def allSessions (data : AppData) : List Rec :=
  (allStages data).flatMap (fun st => st.sessions)

/-- All invoice items of the tree, in invoice order. -/
def allItems (data : AppData) : List Rec :=
  data.invoices.flatMap (fun inv => inv.items)

/-- A key that exists and is not the empty string. -/
def okKey (o : Option String) : Prop :=
  o ≠ none ∧ o ≠ some ""

instance (o : Option String) : Decidable (okKey o) := by
  unfold okKey
  infer_instance

/-- Well-formedness of the nested tree, as the spec states it: consistent
foreign keys and unique non-empty keys. -/
structure WellFormedTree (data : AppData) : Prop where
  fkCases : ∀ c ∈ data.clients, ∀ cs ∈ c.cases, cs.row.client_id = c.row.id
  fkStages : ∀ cs ∈ allCases data, ∀ st ∈ cs.stages, st.row.case_id = cs.row.id
  fkSessions : ∀ st ∈ allStages data, ∀ s ∈ st.sessions, s.stage_id = st.row.id
  fkItems : ∀ inv ∈ data.invoices, ∀ it ∈ inv.items, it.invoice_id = inv.row.id
  ndClients : (data.clients.map (fun c => c.row.id)).Nodup
  ndCases : ((allCases data).map (fun cs => cs.row.id)).Nodup
  ndStages : ((allStages data).map (fun st => st.row.id)).Nodup
  ndSessions : ((allSessions data).map (fun s => s.id)).Nodup
  ndInvoices : (data.invoices.map (fun i => i.row.id)).Nodup
  ndItems : ((allItems data).map (fun it => it.id)).Nodup
  ndAssistants : data.assistants.Nodup
  keyClients : ∀ c ∈ data.clients, okKey c.row.id
  keyCases : ∀ cs ∈ allCases data, okKey cs.row.id
  keyStages : ∀ st ∈ allStages data, okKey st.row.id
  keySessions : ∀ s ∈ allSessions data, okKey s.id
  keyInvoices : ∀ i ∈ data.invoices, okKey i.row.id
  keyItems : ∀ it ∈ allItems data, okKey it.id
  keyAssistants : ∀ n ∈ data.assistants, n ≠ ""

/-- A small concrete well-formed tree: two clients, nested cases, stages,
sessions, one invoice with an item, flat records, two assistants. -/
def sampleTree : AppData :=
  { clients :=
      [{ row := { id := some "c1", updated_at := some 10, payload := 1 },
         cases :=
           [{ row := { id := some "k1", client_id := some "c1", payload := 2 },
              stages :=
                [{ row := { id := some "s1", case_id := some "k1", payload := 3 },
                   sessions :=
                     [{ id := some "x1", stage_id := some "s1", payload := 4 },
                      { id := some "x2", stage_id := some "s1", payload := 5 }] },
                 { row := { id := some "s2", case_id := some "k1", payload := 6 },
                   sessions := [] }] },
            { row := { id := some "k2", client_id := some "c1", payload := 7 },
              stages := [] }] },
       { row := { id := some "c2", payload := 8 }, cases := [] }]
    adminTasks := [{ id := some "t1", payload := 9 }]
    appointments := []
    accountingEntries := [{ id := some "e1", clientId := some "c1", payload := 10 }]
    invoices :=
      [{ row := { id := some "i1", clientId := some "c1", payload := 11 },
         items := [{ id := some "it1", invoice_id := some "i1", payload := 12 }] }]
    assistants := ["A", "B"]
    documents := [{ id := some "d1", caseId := some "k1", payload := 13 }]
    profiles := [{ id := some "p1", payload := 14 }]
    siteFinances := [] }

/-- The fixed deletion order of `deleteDataFromSupabase`
(src/hooks/useOnlineData.ts lines 127-131), children before parents. -/
def deletionOrder : List String :=
  ["case_documents", "invoice_items", "sessions", "stages", "cases",
   "invoices", "admin_tasks", "appointments", "accounting_entries",
   "assistants", "clients", "site_finances", "profiles"]

/-- The per-remote-call outcomes a sync run can observe.  A `RemoteEnv` is
the oracle for every network call `manualSync` makes. -/
structure RemoteEnv where
  schemaSuccess : Bool
  schemaErrKind : Option String := none
  schemaMessage : String := ""
  fetchData : Except String FlatData
  fetchDeletions : Except String (List SyncDeletion)
  storageRemoveOk : Bool := true
  deleteError : String → Option String
  upsertResult : Except String FlatData

/-- The `for (const table of deletionOrder)` loop of
`deleteDataFromSupabase` (src/hooks/useOnlineData.ts lines 133-151): skip
empty tables; per non-empty table the (best-effort, here elided) tombstone
insert then the remote delete; a delete error aborts with the table tagged
on the thrown error.  Returns the tables deleted remotely, in order, and
the thrown `(message, table)` if any. -/
def deleteLoop (env : RemoteEnv) (deletions : FlatData) :
    List String → List String × Option (String × String)
  | [] => ([], none)
  | t :: rest =>
    let itemsToDelete := deletions.tblByName t
    if itemsToDelete.isEmpty then deleteLoop env deletions rest
    else
      match env.deleteError t with
      | some msg => ([], some (msg, t))
      | none =>
        let r := deleteLoop env deletions rest
        (t :: r.1, r.2)

/-- The whole `deleteDataFromSupabase` as a trace: run the loop over the fixed
order. -/
def deleteDataRun (env : RemoteEnv) (deletions : FlatData) :
    List String × Option (String × String) :=
  deleteLoop env deletions deletionOrder

/-- A one-field record as built by `manualSync` for a pending deletion id
(src/unnamed/part_000 lines 261-272). -/
def recOfId (i : String) : Rec := { id := some i }

/-- Pending assistants are keyed by name. -/
def recOfName (n : String) : Rec := { name := some n }

/-- The `flatDeletes` object of `manualSync` (src/unnamed/part_000 lines
260-273): one stub record per pending id; note there is no `profiles`
entry. -/
def flatDeletesOf (ids : DeletedIds) : FlatData :=
  { clients := ids.clients.map recOfId
    cases := ids.cases.map recOfId
    stages := ids.stages.map recOfId
    sessions := ids.sessions.map recOfId
    admin_tasks := ids.adminTasks.map recOfId
    appointments := ids.appointments.map recOfId
    accounting_entries := ids.accountingEntries.map recOfId
    assistants := ids.assistants.map recOfName
    invoices := ids.invoices.map recOfId
    invoice_items := ids.invoiceItems.map recOfId
    case_documents := ids.documents.map recOfId
    site_finances := ids.siteFinances.map recOfId
    profiles := [] }

/-- JS `Object.values(flatDeletes).some(arr => arr && arr.length > 0)`
(src/unnamed/part_000 line 275); the literal has no `profiles` entry. -/
def flatDeletesAny (fd : FlatData) : Bool :=
  !fd.clients.isEmpty || !fd.cases.isEmpty || !fd.stages.isEmpty ||
  !fd.sessions.isEmpty || !fd.admin_tasks.isEmpty || !fd.appointments.isEmpty ||
  !fd.accounting_entries.isEmpty || !fd.assistants.isEmpty ||
  !fd.invoices.isEmpty || !fd.invoice_items.isEmpty ||
  !fd.case_documents.isEmpty || !fd.site_finances.isEmpty

/-- The `upsertedMap` of `manualSync` (src/unnamed/part_000 lines
284-285): every server-returned record keyed by `item.id ?? item.name`,
tables walked in `FlatData` field order, later entries overwriting. -/
def upsertedMapOf (upserted : FlatData) : List (Option String × Rec) :=
  (upserted.clients ++ upserted.cases ++ upserted.stages ++ upserted.sessions ++
   upserted.admin_tasks ++ upserted.appointments ++ upserted.accounting_entries ++
   upserted.assistants ++ upserted.invoices ++ upserted.invoice_items ++
   upserted.case_documents ++ upserted.profiles ++ upserted.site_finances).foldl
    (fun m item => jsMapSet m (jsId item) item) []

/-- One table of the server-truth fold-back (src/unnamed/part_000 lines
288-293): `merged.map(item => upsertedMap.get(item.id ?? item.name) || item)`. -/
def echoTable (um : List (Option String × Rec)) (items : List Rec) : List Rec :=
  items.map (fun item => (jsMapGet um (jsId item)).getD item)

/-- The whole server-truth fold-back, applied to every merged table. -/
def applyServerEcho (merged upserted : FlatData) : FlatData :=
  let um := upsertedMapOf upserted
  { clients := echoTable um merged.clients
    cases := echoTable um merged.cases
    stages := echoTable um merged.stages
    sessions := echoTable um merged.sessions
    admin_tasks := echoTable um merged.admin_tasks
    appointments := echoTable um merged.appointments
    accounting_entries := echoTable um merged.accounting_entries
    assistants := echoTable um merged.assistants
    invoices := echoTable um merged.invoices
    invoice_items := echoTable um merged.invoice_items
    case_documents := echoTable um merged.case_documents
    profiles := echoTable um merged.profiles
    site_finances := echoTable um merged.site_finances }

/-- The sync status values of `useSync`. -/
inductive SyncStatus
  | loading | syncing | synced | error | unconfigured | uninitialized
deriving Repr, DecidableEq

/-- Character-list prefix test, for modelling JS `String.includes`. -/
def hasPrefixChars : List Char → List Char → Bool
  | [], _ => true
  | _ :: _, [] => false
  | a :: as, b :: bs => a == b && hasPrefixChars as bs

/-- Character-list substring test. -/
def hasSubChars (needle : List Char) : List Char → Bool
  | [] => hasPrefixChars needle []
  | c :: rest => hasPrefixChars needle (c :: rest) || hasSubChars needle rest

/-- JS `hay.includes(needle)`. -/
def strIncludes (hay needle : String) : Bool :=
  hasSubChars needle.toList hay.toList

/-- The catch block of `manualSync` (src/unnamed/part_000 lines 298-302):
`err.message` with a generic fallback when empty, and a friendlier message when the text
contains `failed to fetch`. -/
def catchMessage (raw : String) : String :=
  let msg := if raw = "" then "فشلت المزامنة." else raw
  if strIncludes msg "failed to fetch" then "فشل الاتصال بالخادم." else msg

/-- What one `manualSync` run does that the caller can observe: the final
status, its message, the argument of `onDataSynced` (`constructData` is
applied to `publishedFlat` before delivery; `none` means the callback was
never invoked and the local snapshot is untouched), the argument of
`onDeletionsSynced` (`none` likewise means not invoked, so no pending
deletion id is cleared), and which tables had their remote delete
executed. -/
structure SyncOutcome where
  status : SyncStatus
  errorMessage : Option String
  publishedFlat : Option FlatData
  deletionsSynced : Option DeletedIds
  remoteDeletesExecuted : List String
deriving Repr, DecidableEq

/-- The orchestrator `manualSync` (src/unnamed/part_000 lines 195-303) over a `RemoteEnv`
oracle: reentrancy/auth guard, online/user guard, schema probe, concurrent
fetch (tombstone fetch failure tolerated as an empty list), the reconcile
phase, storage removal of pending document paths, the deletion push, the
upsert push, the server-truth fold-back, and the publish callbacks; any
throw inside the try block ends in `error` with nothing published. -/
def manualSyncModel (env : RemoteEnv) (currentStatus : SyncStatus)
    (isAuthLoading isOnline hasUser : Bool) (localData : AppData)
    (deletedIds : DeletedIds) : SyncOutcome :=
  if currentStatus = SyncStatus.syncing ∨ isAuthLoading = true then
    { status := currentStatus, errorMessage := none, publishedFlat := none,
      deletionsSynced := none, remoteDeletesExecuted := [] }
  else if isOnline = false ∨ hasUser = false then
    { status := SyncStatus.error,
      errorMessage := some (if isOnline then "يجب تسجيل الدخول للمزامنة."
        else "يجب أن تكون متصلاً بالإنترنت للمزامنة."),
      publishedFlat := none, deletionsSynced := none,
      remoteDeletesExecuted := [] }
  else if env.schemaSuccess = false then
    if env.schemaErrKind = some "unconfigured" then
      { status := SyncStatus.unconfigured, errorMessage := none,
        publishedFlat := none, deletionsSynced := none,
        remoteDeletesExecuted := [] }
    else if env.schemaErrKind = some "uninitialized" then
      { status := SyncStatus.uninitialized,
        errorMessage := some "قاعدة البيانات غير مهيأة.",
        publishedFlat := none, deletionsSynced := none,
        remoteDeletesExecuted := [] }
    else
      { status := SyncStatus.error,
        errorMessage := some ("فشل الاتصال: " ++ env.schemaMessage),
        publishedFlat := none, deletionsSynced := none,
        remoteDeletesExecuted := [] }
  else
    match env.fetchData with
    | Except.error msg =>
      { status := SyncStatus.error, errorMessage := some (catchMessage msg),
        publishedFlat := none, deletionsSynced := none,
        remoteDeletesExecuted := [] }
    | Except.ok remoteFlat =>
      let remoteDeletions :=
        match env.fetchDeletions with
        | Except.ok ds => ds
        | Except.error _ => []
      let smr := syncMergePhase (flattenData localData) remoteFlat
        remoteDeletions deletedIds
      let successfulDeletions0 :=
        if !deletedIds.documentPaths.isEmpty && env.storageRemoveOk then
          { initialDeletedIds with documentPaths := deletedIds.documentPaths }
        else initialDeletedIds
      let flatDeletes := flatDeletesOf deletedIds
      let anyDel := flatDeletesAny flatDeletes
      let delRes := if anyDel then deleteDataRun env flatDeletes else ([], none)
      match delRes.2 with
      | some e =>
        { status := SyncStatus.error, errorMessage := some (catchMessage e.1),
          publishedFlat := none, deletionsSynced := none,
          remoteDeletesExecuted := delRes.1 }
      | none =>
        let successfulDeletions :=
          if anyDel then deletedIds else successfulDeletions0
        match env.upsertResult with
        | Except.error msg =>
          { status := SyncStatus.error, errorMessage := some (catchMessage msg),
            publishedFlat := none, deletionsSynced := none,
            remoteDeletesExecuted := delRes.1 }
        | Except.ok upserted =>
          { status := SyncStatus.synced, errorMessage := none,
            publishedFlat := some (applyServerEcho smr.mergedFlat upserted),
            deletionsSynced := some successfulDeletions,
            remoteDeletesExecuted := delRes.1 }

/-- The orphan filters of `upsertDataToSupabase`
(src/hooks/useOnlineData.ts lines 160-201): the per-table batch actually
sent to the remote store.  The valid-id sets are built from the write set
itself; a child whose parent id is not among them is dropped from its
table's batch, silently.  (The per-record column renaming of the source is
the identity on the embedded fields and does not affect membership.) -/
def upsertBatches (data : FlatData) : FlatData :=
  let validClientIds := data.clients.map (fun c => c.id)
  let validCaseIds := data.cases.map (fun c => c.id)
  let validStageIds := data.stages.map (fun s => s.id)
  let validInvoiceIds := data.invoices.map (fun i => i.id)
  { profiles := data.profiles
    assistants := data.assistants
    clients := data.clients
    cases := data.cases.filter (fun c => validClientIds.contains c.client_id)
    stages := data.stages.filter (fun s => validCaseIds.contains s.case_id)
    sessions := data.sessions.filter (fun s => validStageIds.contains s.stage_id)
    invoices := data.invoices.filter (fun i => validClientIds.contains i.clientId)
    invoice_items := data.invoice_items.filter
      (fun i => validInvoiceIds.contains i.invoice_id)
    case_documents := data.case_documents.filter
      (fun d => validCaseIds.contains d.caseId)
    admin_tasks := data.admin_tasks
    appointments := data.appointments
    accounting_entries := data.accounting_entries
    site_finances := data.site_finances }

/-- The `localState` values of a `CaseDocument`. -/
inductive DocLocalState
  | pending_upload | pending_download | downloading | synced | archived
  | error | expired
deriving Repr, DecidableEq

/-- The fields of a `CaseDocument` that `cleanupCloudStorage` reads;
`addedAt` is epoch milliseconds, `payload` the remaining fields. -/
structure CaseDoc where
  id : String
  addedAt : Int
  storagePath : String
  localState : DocLocalState
  payload : Nat := 0
deriving Repr, DecidableEq

/-- Outcome of one `storage.remove` call: success, a 404 for an
already-gone blob, or any other failure. -/
inductive RemoveOutcome
  | ok | notFound | failed
deriving Repr, DecidableEq

/-- 24 hours in milliseconds (`ONE_DAY` of src/unnamed/part_000 line 1771). -/
def ONE_DAY : Int := 24 * 60 * 60 * 1000

/-- The keyless metadata write of the sweep: the archival
`db.put(DOCS_METADATA_STORE_NAME, updatedDoc)` (src/unnamed/part_000 line
1787) passes no key, but that store is created by
`createObjectStore(DOCS_METADATA_STORE_NAME)` with neither a key path nor
a key generator (line 1425), so by the IndexedDB record-storing steps the
request deterministically fails with `DataError`.  (Every write to this
store in the sibling copy of the hook passes `doc.id` explicitly — lines
1096, 1119, 1153, 1170, 1191, 1337 — confirming the store needs an
explicit key.) -/
def docsMetadataPutNoKey (store : List CaseDoc) (updatedDoc : CaseDoc) :
    Except String (List CaseDoc) :=
  Except.error "DataError"

/-- What the retention sweep leaves behind: the document metadata list,
the storage paths whose removal was attempted (in loop order), and the
error its catch swallowed when the sweep aborted. -/
structure CleanupResult where
  docs : List CaseDoc
  attempted : List String
  aborted : Option String
deriving Repr, DecidableEq

/-- The `for (const doc of expiredDocs)` loop of the sweep
(src/unnamed/part_000 lines 1779-1790): attempt the remote blob removal;
on success or 404 write the archived metadata record — the keyless
`db.put` throws, and the enclosing catch (line 1791) ends the whole sweep
right there; on any other removal failure skip the document and continue.
(The `Except.ok` continuation mirrors the setDocuments update the source
would perform, but the put never succeeds.) -/
def cleanupLoop (removeBlob : String → RemoveOutcome) :
    List CaseDoc → List CaseDoc → List String → CleanupResult
  | [], docs, attempted => ⟨docs, attempted, none⟩
  | doc :: rest, docs, attempted =>
    let attempted2 := attempted ++ [doc.storagePath]
    match removeBlob doc.storagePath with
    | RemoveOutcome.ok | RemoveOutcome.notFound =>
      let updatedDoc := { doc with localState := DocLocalState.archived }
      match docsMetadataPutNoKey docs updatedDoc with
      | Except.error e => ⟨docs, attempted2, some e⟩
      | Except.ok docs2 =>
        cleanupLoop removeBlob rest
          (docs2.map (fun d => if d.id == doc.id then updatedDoc else d))
          attempted2
    | RemoveOutcome.failed => cleanupLoop removeBlob rest docs attempted2

/-- The retention sweep `cleanupCloudStorage` (src/unnamed/part_000 lines
1764-1794): select the `synced` documents older than 24 hours and run the
removal/archive loop over them; any throw inside is swallowed by the
catch, which only logs and returns. -/
def cleanupCloudStorage (now : Int) (docs : List CaseDoc)
    (removeBlob : String → RemoveOutcome) : CleanupResult :=
  let expiredDocs := docs.filter (fun doc =>
    decide (now - doc.addedAt > ONE_DAY) &&
      doc.localState == DocLocalState.synced)
  cleanupLoop removeBlob expiredDocs docs []

/-- A remote environment whose tombstone list deletes client `a`. -/
def c2env : RemoteEnv :=
  { schemaSuccess := true
    fetchData := Except.ok {}
    fetchDeletions := Except.ok
      [{ table_name := "clients", record_id := "a", deleted_at := 1000 }]
    deleteError := fun _ => none
    upsertResult := Except.ok {} }

/-- A local client record last updated 1.5 s after epoch. -/
def c2rec : Rec := { id := some "a", updated_at := some 1500 }

/-- A local snapshot holding only that client. -/
def c2data : AppData := { clients := [{ row := c2rec, cases := [] }] }

/-- A local client record edited 4 s after its remote deletion. -/
def c3rec : Rec := { id := some "a", updated_at := some 5000 }

/-- The tombstone deleting that client at t = 1000 ms. -/
def c3del : SyncDeletion :=
  { table_name := "clients", record_id := "a", deleted_at := 1000 }

/-- A local snapshot holding only that client. -/
def c3data : AppData := { clients := [{ row := c3rec, cases := [] }] }

/-- The environment of the C8 counterexample: every call succeeds except
the remote delete of the `clients` table. -/
def c8env : RemoteEnv :=
  { schemaSuccess := true
    fetchData := Except.ok {}
    fetchDeletions := Except.ok []
    deleteError := fun t => if t = "clients" then some "boom" else none
    upsertResult := Except.ok {} }

/-- Pending deletions in two tables: a session (processed before clients
in the fixed order) and a client (whose delete fails). -/
def c8ids : DeletedIds := { clients := ["c1"], sessions := ["x1"] }

/-- The environment of the C9 witness: the schema probe passes and the
fetch throws. -/
def c9env : RemoteEnv :=
  { schemaSuccess := true
    fetchData := Except.error "boom"
    fetchDeletions := Except.ok []
    deleteError := fun _ => none
    upsertResult := Except.ok {} }

theorem jsMapSet_fresh {κ α : Type} [BEq κ] [LawfulBEq κ]
    (m : List (κ × α)) (k : κ) (v : α)
    (h : ∀ p ∈ m, p.1 ≠ k) : jsMapSet m k v = m ++ [(k, v)] := by
  have hany : m.any (fun p => p.1 == k) = false := by
    rw [List.any_eq_false]
    intro p hp
    simpa using h p hp
  simp [jsMapSet, hany]

theorem mem_jsMapSet {κ α : Type} [BEq κ] {m : List (κ × α)} {k : κ} {v : α}
    {p : κ × α} (hp : p ∈ jsMapSet m k v) : p ∈ m ∨ p = (k, v) := by
  unfold jsMapSet at hp
  by_cases h : m.any (fun q => q.1 == k) = true
  · rw [if_pos h] at hp
    obtain ⟨q, hq, he⟩ := List.mem_map.mp hp
    by_cases hqk : (q.1 == k) = true
    · right
      rw [if_pos hqk] at he
      exact he.symm
    · left
      rw [if_neg hqk] at he
      exact he ▸ hq
  · rw [if_neg h] at hp
    rcases List.mem_append.mp hp with h1 | h2
    · exact Or.inl h1
    · exact Or.inr (List.mem_singleton.mp h2)

theorem goodEntry_jsMapSet {ds : List String} {tn : String}
    {fm : List (String × Rec)} {k : String} {v : Rec}
    (hfm : ∀ p ∈ fm, goodEntry ds tn p) (hkv : goodEntry ds tn (k, v)) :
    ∀ p ∈ jsMapSet fm k v, goodEntry ds tn p := by
  intro p hp
  rcases mem_jsMapSet hp with h | h
  · exact hfm p h
  · exact h ▸ hkv

theorem mergePass1_inv (remoteL : List Rec) (ds : List String) (tn : String)
    (localL : List Rec) (fm : List (String × Rec)) (up : List Rec)
    (hfm : ∀ p ∈ fm, goodEntry ds tn p)
    (hup : ∀ x ∈ up, getPk x ≠ "" ∧ ds.contains (tn ++ ":" ++ getPk x) = false) :
    (∀ p ∈ (mergePass1 remoteL ds tn localL (fm, up)).1, goodEntry ds tn p) ∧
    (∀ x ∈ (mergePass1 remoteL ds tn localL (fm, up)).2,
      getPk x ≠ "" ∧ ds.contains (tn ++ ":" ++ getPk x) = false) := by
  induction localL generalizing fm up with
  | nil => exact ⟨hfm, hup⟩
  | cons l rest ih =>
    by_cases h0 : getPk l = ""
    · rw [mergePass1, if_pos h0]
      exact ih fm up hfm hup
    · by_cases h1 : ds.contains (tn ++ ":" ++ getPk l) = true
      · rw [mergePass1, if_neg h0, if_pos h1]
        exact ih fm up hfm hup
      · have h1f : ds.contains (tn ++ ":" ++ getPk l) = false :=
          Bool.eq_false_iff.mpr h1
        rcases hfind : remoteL.find? (fun r => getPk r == getPk l) with _ | r
        · rw [mergePass1, if_neg h0, if_neg h1, hfind]
          refine ih _ _ (goodEntry_jsMapSet hfm ⟨h0, h1f, rfl⟩) ?_
          intro x hx
          rcases List.mem_append.mp hx with h | h
          · exact hup x h
          · rw [List.mem_singleton.mp h]
            exact ⟨h0, h1f⟩
        · have hrk : getPk r = getPk l := by
            simpa using List.find?_some hfind
          rw [mergePass1, if_neg h0, if_neg h1, hfind]
          dsimp only
          by_cases hwin : updMs r + 1000 < updMs l
          · rw [if_pos hwin]
            refine ih _ _ (goodEntry_jsMapSet hfm ⟨h0, h1f, rfl⟩) ?_
            intro x hx
            rcases List.mem_append.mp hx with h | h
            · exact hup x h
            · rw [List.mem_singleton.mp h]
              exact ⟨h0, h1f⟩
          · rw [if_neg hwin]
            exact ih _ _ (goodEntry_jsMapSet hfm ⟨h0, h1f, hrk⟩) hup

theorem mergePass2_inv (ds : List String) (tn : String) (remoteL : List Rec)
    (fm : List (String × Rec)) (hfm : ∀ p ∈ fm, goodEntry ds tn p) :
    ∀ p ∈ mergePass2 ds tn remoteL fm, goodEntry ds tn p := by
  induction remoteL generalizing fm with
  | nil => exact hfm
  | cons r rest ih =>
    by_cases h0 : getPk r = ""
    · rw [mergePass2, if_pos h0]
      exact ih fm hfm
    · by_cases h1 : jsMapHas fm (getPk r) = true
      · rw [mergePass2, if_neg h0, if_pos h1]
        exact ih fm hfm
      · by_cases h2 : ds.contains (tn ++ ":" ++ getPk r) = true
        · rw [mergePass2, if_neg h0, if_neg h1, if_pos h2]
          exact ih fm hfm
        · rw [mergePass2, if_neg h0, if_neg h1, if_neg h2]
          exact ih _ (goodEntry_jsMapSet hfm
            ⟨h0, Bool.eq_false_iff.mpr h2, rfl⟩)

theorem mergeItems_good (localL remoteL : List Rec) (ds : List String)
    (tn : String) :
    (∀ x ∈ (mergeItems localL remoteL ds tn).merged,
      getPk x ≠ "" ∧ ds.contains (tn ++ ":" ++ getPk x) = false) ∧
    (∀ x ∈ (mergeItems localL remoteL ds tn).toUpsert,
      getPk x ≠ "" ∧ ds.contains (tn ++ ":" ++ getPk x) = false) := by
  have h1 := mergePass1_inv remoteL ds tn localL [] []
    (by intro p hp; cases hp) (by intro x hx; cases hx)
  have h2 := mergePass2_inv ds tn remoteL _ h1.1
  constructor
  · intro x hx
    obtain ⟨p, hp, hpe⟩ := List.mem_map.mp hx
    obtain ⟨hne, hdead, hpk⟩ := h2 p hp
    rw [← hpe, hpk]
    exact ⟨hne, hdead⟩
  · exact h1.2

theorem mergePass1_eq (remoteL : List Rec) (ds : List String) (tn : String)
    (localL : List Rec) (fm : List (String × Rec)) (up : List Rec)
    (hnd : (localL.map getPk).Nodup)
    (hdisj : ∀ p ∈ fm, ∀ l ∈ localL, p.1 ≠ getPk l) :
    mergePass1 remoteL ds tn localL (fm, up) =
      (fm ++ localL.filterMap (resolveLocal remoteL ds tn),
       up ++ localL.filterMap (pushLocal remoteL ds tn)) := by
  induction localL generalizing fm up with
  | nil => simp [mergePass1]
  | cons l rest ih =>
    have hnd2 : (getPk l :: rest.map getPk).Nodup := by
      simpa [List.map_cons] using hnd
    have hnd' : (rest.map getPk).Nodup := hnd2.of_cons
    have hhead : ∀ l' ∈ rest, getPk l ≠ getPk l' := by
      intro l' hl' he
      exact (List.nodup_cons.mp hnd2).1 (he ▸ List.mem_map_of_mem getPk hl')
    have hfresh : ∀ p ∈ fm, p.1 ≠ getPk l := fun p hp =>
      hdisj p hp l (List.mem_cons_self l rest)
    by_cases h0 : getPk l = ""
    · rw [mergePass1, if_pos h0]
      rw [ih fm up hnd' (fun p hp l' hl' => hdisj p hp l' (List.mem_cons_of_mem l hl'))]
      simp [List.filterMap_cons, resolveLocal, pushLocal, h0]
    · by_cases h1 : ds.contains (tn ++ ":" ++ getPk l) = true
      · rw [mergePass1, if_neg h0, if_pos h1]
        rw [ih fm up hnd' (fun p hp l' hl' => hdisj p hp l' (List.mem_cons_of_mem l hl'))]
        have h1m : tn ++ ":" ++ getPk l ∈ ds := by simpa using h1
        simp [List.filterMap_cons, resolveLocal, pushLocal, h0, h1m]
      · rcases hfind : remoteL.find? (fun r => getPk r == getPk l) with _ | r
        · rw [mergePass1, if_neg h0, if_neg h1, hfind]
          rw [jsMapSet_fresh fm (getPk l) l hfresh]
          rw [ih (fm ++ [(getPk l, l)]) (up ++ [l]) hnd' ?_]
          · simp only [List.filterMap_cons, resolveLocal, pushLocal, h0, h1,
              hfind, if_neg h0, if_neg h1]
            simp [List.append_assoc]
          · intro p hp l' hl'
            rcases List.mem_append.mp hp with h | h
            · exact hdisj p h l' (List.mem_cons_of_mem l hl')
            · rw [List.mem_singleton.mp h]
              exact hhead l' hl'
        · rw [mergePass1, if_neg h0, if_neg h1, hfind]
          dsimp only
          by_cases hwin : updMs r + 1000 < updMs l
          · rw [if_pos hwin]
            rw [jsMapSet_fresh fm (getPk l) l hfresh]
            rw [ih (fm ++ [(getPk l, l)]) (up ++ [l]) hnd' ?_]
            · simp only [List.filterMap_cons, resolveLocal, pushLocal, h0, h1,
                hfind, if_neg h0, if_neg h1, if_pos hwin]
              simp [List.append_assoc]
            · intro p hp l' hl'
              rcases List.mem_append.mp hp with h | h
              · exact hdisj p h l' (List.mem_cons_of_mem l hl')
              · rw [List.mem_singleton.mp h]
                exact hhead l' hl'
          · rw [if_neg hwin]
            rw [jsMapSet_fresh fm (getPk l) r hfresh]
            rw [ih (fm ++ [(getPk l, r)]) up hnd' ?_]
            · simp only [List.filterMap_cons, resolveLocal, pushLocal, h0, h1,
                hfind, if_neg h0, if_neg h1, if_neg hwin]
              simp [List.append_assoc]
            · intro p hp l' hl'
              rcases List.mem_append.mp hp with h | h
              · exact hdisj p h l' (List.mem_cons_of_mem l hl')
              · rw [List.mem_singleton.mp h]
                exact hhead l' hl'

theorem mergePass2_extra (ds : List String) (tn : String) (remoteL : List Rec)
    (fm : List (String × Rec)) :
    ∃ extra, mergePass2 ds tn remoteL fm = fm ++ extra ∧
      ∀ p ∈ extra, p.2 ∈ remoteL ∧ getPk p.2 = p.1 ∧ ∀ q ∈ fm, q.1 ≠ p.1 := by
  induction remoteL generalizing fm with
  | nil => exact ⟨[], by simp [mergePass2], by intro p hp; cases hp⟩
  | cons r rest ih =>
    by_cases h0 : getPk r = ""
    · obtain ⟨extra, he, hprop⟩ := ih fm
      refine ⟨extra, by rw [mergePass2, if_pos h0]; exact he, ?_⟩
      intro p hp
      obtain ⟨h1, h2, h3⟩ := hprop p hp
      exact ⟨List.mem_cons_of_mem r h1, h2, h3⟩
    · by_cases h1 : jsMapHas fm (getPk r) = true
      · obtain ⟨extra, he, hprop⟩ := ih fm
        refine ⟨extra, by rw [mergePass2, if_neg h0, if_pos h1]; exact he, ?_⟩
        intro p hp
        obtain ⟨ha, hb, hc⟩ := hprop p hp
        exact ⟨List.mem_cons_of_mem r ha, hb, hc⟩
      · have hfresh : ∀ q ∈ fm, q.1 ≠ getPk r := by
          intro q hq he
          exact h1 (List.any_eq_true.mpr ⟨q, hq, by simpa using he⟩)
        by_cases h2 : ds.contains (tn ++ ":" ++ getPk r) = true
        · obtain ⟨extra, he, hprop⟩ := ih fm
          refine ⟨extra, by rw [mergePass2, if_neg h0, if_neg h1, if_pos h2]; exact he, ?_⟩
          intro p hp
          obtain ⟨ha, hb, hc⟩ := hprop p hp
          exact ⟨List.mem_cons_of_mem r ha, hb, hc⟩
        · obtain ⟨extra, he, hprop⟩ := ih (fm ++ [(getPk r, r)])
          refine ⟨(getPk r, r) :: extra, ?_, ?_⟩
          · rw [mergePass2, if_neg h0, if_neg h1, if_neg h2,
              jsMapSet_fresh fm (getPk r) r hfresh, he]
            simp
          · intro p hp
            rcases List.mem_cons.mp hp with h | h
            · subst h
              exact ⟨List.mem_cons_self r rest, rfl, hfresh⟩
            · obtain ⟨ha, hb, hc⟩ := hprop p h
              refine ⟨List.mem_cons_of_mem r ha, hb, ?_⟩
              intro q hq
              exact hc q (List.mem_append_left _ hq)

theorem pushLocal_eq_self {remoteL : List Rec} {ds : List String} {tn : String}
    {a x : Rec} (h : pushLocal remoteL ds tn a = some x) : x = a := by
  unfold pushLocal at h
  dsimp only at h
  split at h
  · cases h
  · split at h
    · cases h
    · split at h
      · split at h
        · exact (Option.some.inj h).symm
        · cases h
      · exact (Option.some.inj h).symm

theorem resolveLocal_of_found {remoteL : List Rec} {ds : List String}
    {tn : String} {l r : Rec} (hk : getPk l ≠ "")
    (hdead : ds.contains (tn ++ ":" ++ getPk l) = false)
    (hr : remoteL.find? (fun x => getPk x == getPk l) = some r) :
    resolveLocal remoteL ds tn l =
      some (getPk l, if updMs r + 1000 < updMs l then l else r) ∧
    pushLocal remoteL ds tn l =
      (if updMs r + 1000 < updMs l then some l else none) := by
  constructor
  · unfold resolveLocal
    rw [if_neg hk, if_neg (by simpa using hdead), hr]
    dsimp only
    by_cases hwin : updMs r + 1000 < updMs l
    · rw [if_pos hwin, if_pos hwin]
    · rw [if_neg hwin, if_neg hwin]
  · unfold pushLocal
    rw [if_neg hk, if_neg (by simpa using hdead), hr]

/-- C1: in the per-table merge, a non-tombstoned local record whose key has
a remote match (the record `find?` locates) is kept in `merged` and pushed
to `toUpsert` exactly when `local.updated_at > remote.updated_at + 1000`
(absent timestamps being epoch 0); otherwise the remote record is kept and
no record with that key is pushed, so ties and sub-second local leads
resolve to remote.  (Stated for a table whose local records have pairwise
distinct primary keys.) -/
theorem merge_remote_match_lww (localL remoteL : List Rec) (ds : List String)
    (tn : String) (l r : Rec) (hnd : (localL.map getPk).Nodup)
    (hl : l ∈ localL) (hk : getPk l ≠ "")
    (hdead : ds.contains (tn ++ ":" ++ getPk l) = false)
    (hr : remoteL.find? (fun x => getPk x == getPk l) = some r) :
    ((l ∈ (mergeItems localL remoteL ds tn).merged ∧
      l ∈ (mergeItems localL remoteL ds tn).toUpsert) ↔
        updMs r + 1000 < updMs l) ∧
    (¬(updMs r + 1000 < updMs l) →
      r ∈ (mergeItems localL remoteL ds tn).merged ∧
      ∀ x ∈ (mergeItems localL remoteL ds tn).toUpsert, getPk x ≠ getPk l) := by
  have hpass1 := mergePass1_eq remoteL ds tn localL [] [] hnd
    (by intro p hp; cases hp)
  obtain ⟨hres, hpush⟩ := resolveLocal_of_found hk hdead hr
  obtain ⟨extra, hex, hexprop⟩ :=
    mergePass2_extra ds tn remoteL (mergePass1 remoteL ds tn localL ([], [])).1
  have hmerged : (mergeItems localL remoteL ds tn).merged =
      ((localL.filterMap (resolveLocal remoteL ds tn)) ++ extra).map
        (fun p => p.2) := by
    unfold mergeItems
    dsimp only
    rw [hex, hpass1]
    simp
  have htoup : (mergeItems localL remoteL ds tn).toUpsert =
      localL.filterMap (pushLocal remoteL ds tn) := by
    unfold mergeItems
    dsimp only
    rw [hpass1]
    simp
  have hinj := List.inj_on_of_nodup_map hnd
  have hup_key : ∀ x ∈ (mergeItems localL remoteL ds tn).toUpsert,
      getPk x = getPk l → updMs r + 1000 < updMs l ∧ x = l := by
    intro x hx hkey
    rw [htoup] at hx
    obtain ⟨a, ha, hax⟩ := List.mem_filterMap.mp hx
    have hxa : x = a := pushLocal_eq_self hax
    subst hxa
    have hal : x = l := hinj ha hl hkey
    subst hal
    rw [hpush] at hax
    constructor
    · by_contra hnw
      rw [if_neg hnw] at hax
      cases hax
    · rfl
  constructor
  · constructor
    · intro ⟨_, hu⟩
      exact (hup_key l hu rfl).1
    · intro hwin
      rw [if_pos hwin] at hres hpush
      constructor
      · rw [hmerged]
        refine List.mem_map.mpr ⟨(getPk l, l), ?_, rfl⟩
        exact List.mem_append_left _
          (List.mem_filterMap.mpr ⟨l, hl, hres⟩)
      · rw [htoup]
        exact List.mem_filterMap.mpr ⟨l, hl, hpush⟩
  · intro hnw
    rw [if_neg hnw] at hres
    constructor
    · rw [hmerged]
      refine List.mem_map.mpr ⟨(getPk l, r), ?_, rfl⟩
      exact List.mem_append_left _ (List.mem_filterMap.mpr ⟨l, hl, hres⟩)
    · intro x hx hkey
      exact hnw (hup_key x hx hkey).1

/-- Witness for C1: local `updated_at = 1500` vs remote `= 0` is a
sub-second lead, so remote wins and nothing is pushed; the same record at
`updated_at = 5000` wins and is pushed. -/
theorem merge_remote_match_lww_witness :
    (¬((⟨some "a", none, some 1500, none, none, none, none, none, none, 1⟩ : Rec)
        ∈ (mergeItems
            [⟨some "a", none, some 1500, none, none, none, none, none, none, 1⟩]
            [⟨some "a", none, some 500, none, none, none, none, none, none, 2⟩]
            [] "clients").merged ∧
      (⟨some "a", none, some 1500, none, none, none, none, none, none, 1⟩ : Rec)
        ∈ (mergeItems
            [⟨some "a", none, some 1500, none, none, none, none, none, none, 1⟩]
            [⟨some "a", none, some 500, none, none, none, none, none, none, 2⟩]
            [] "clients").toUpsert)) ∧
    ((⟨some "a", none, some 500, none, none, none, none, none, none, 2⟩ : Rec)
        ∈ (mergeItems
            [⟨some "a", none, some 1500, none, none, none, none, none, none, 1⟩]
            [⟨some "a", none, some 500, none, none, none, none, none, none, 2⟩]
            [] "clients").merged) := by
  have h := merge_remote_match_lww
    [⟨some "a", none, some 1500, none, none, none, none, none, none, 1⟩]
    [⟨some "a", none, some 500, none, none, none, none, none, none, 2⟩]
    [] "clients"
    ⟨some "a", none, some 1500, none, none, none, none, none, none, 1⟩
    ⟨some "a", none, some 500, none, none, none, none, none, none, 2⟩
    (by decide) (by decide) (by decide) (by decide) (by decide)
  refine ⟨?_, (h.2 (by decide)).1⟩
  intro hc
  exact absurd (h.1.mp hc) (by decide)

/-- C4: every key in the deleted-key set handed to the per-table merge is
absent from both outputs: no record carrying a tombstoned key appears in
`merged` or in `toUpsert`, whatever the timestamps are. -/
theorem merge_tombstoned_key_excluded (localL remoteL : List Rec)
    (ds : List String) (tn : String) (k : String)
    (hk : ds.contains (tn ++ ":" ++ k) = true) :
    (∀ x ∈ (mergeItems localL remoteL ds tn).merged, getPk x ≠ k) ∧
    (∀ x ∈ (mergeItems localL remoteL ds tn).toUpsert, getPk x ≠ k) := by
  obtain ⟨hm, hu⟩ := mergeItems_good localL remoteL ds tn
  constructor
  · intro x hx he
    have h2 := (hm x hx).2
    rw [← he, h2] at hk
    cases hk
  · intro x hx he
    have h2 := (hu x hx).2
    rw [← he, h2] at hk
    cases hk

/-- Witness for C4: a tombstoned key with a much newer local record is in
neither output. -/
theorem merge_tombstoned_key_excluded_witness :
    (⟨some "a", none, some 99999, none, none, none, none, none, none, 1⟩ : Rec) ∉
      (mergeItems
        [⟨some "a", none, some 99999, none, none, none, none, none, none, 1⟩]
        [⟨some "a", none, some 0, none, none, none, none, none, none, 2⟩]
        ["clients:a"] "clients").merged :=
  fun h =>
    (merge_tombstoned_key_excluded
      [⟨some "a", none, some 99999, none, none, none, none, none, none, 1⟩]
      [⟨some "a", none, some 0, none, none, none, none, none, none, 2⟩]
      ["clients:a"] "clients" "a" (by decide)).1 _ h rfl

theorem foldlCongrMem {α β : Type} {l : List α} {f g : β → α → β} {init : β}
    (h : ∀ b, ∀ a ∈ l, f b a = g b a) : l.foldl f init = l.foldl g init := by
  induction l generalizing init with
  | nil => rfl
  | cons a rest ih =>
    rw [List.foldl_cons, List.foldl_cons, h init a (List.mem_cons_self a rest)]
    exact ih (fun b a' ha' => h b a' (List.mem_cons_of_mem a ha'))

theorem jsGroupPush_fresh {κ α : Type} [BEq κ] [LawfulBEq κ]
    (m : List (κ × List α)) (k : κ) (v : α) (h : ∀ p ∈ m, p.1 ≠ k) :
    jsGroupPush m k v = m ++ [(k, [v])] := by
  have hany : m.any (fun p => p.1 == k) = false := by
    rw [List.any_eq_false]
    intro p hp
    simpa using h p hp
  simp [jsGroupPush, hany]

theorem jsGroupPush_last {κ α : Type} [BEq κ] [LawfulBEq κ]
    (acc : List (κ × List α)) (k : κ) (g : List α) (v : α)
    (hfresh : ∀ p ∈ acc, p.1 ≠ k) :
    jsGroupPush (acc ++ [(k, g)]) k v = acc ++ [(k, g ++ [v])] := by
  have hany : (acc ++ [(k, g)]).any (fun p => p.1 == k) = true := by
    rw [List.any_eq_true]
    exact ⟨(k, g), List.mem_append_right _ (List.mem_singleton_self _), by simp⟩
  rw [jsGroupPush, if_pos hany, List.map_append]
  congr 1
  · conv_rhs => rw [← List.map_id acc]
    apply List.map_congr_left
    intro p hp
    have hpk : (p.1 == k) = false := by simpa using hfresh p hp
    simp [hpk]
  · simp

/-- Folding the grouping step over one run of records that all share the
key `k`, starting from a map whose last entry is `(k, g)` and whose other
entries do not use `k`, appends the run to that last group. -/
theorem foldl_groupPush_run {κ α β : Type} [BEq κ] [LawfulBEq κ]
    (key : α → κ) (val : α → β) (items : List α) (k : κ)
    (acc : List (κ × List β)) (g : List β)
    (hfresh : ∀ p ∈ acc, p.1 ≠ k) (hkeys : ∀ a ∈ items, key a = k) :
    items.foldl (fun m a => jsGroupPush m (key a) (val a)) (acc ++ [(k, g)]) =
      acc ++ [(k, g ++ items.map val)] := by
  induction items generalizing g with
  | nil => simp
  | cons a rest ih =>
    rw [List.foldl_cons, hkeys a (List.mem_cons_self a rest),
      jsGroupPush_last acc k g (val a) hfresh,
      ih (g ++ [val a]) (fun b hb => hkeys b (List.mem_cons_of_mem a hb))]
    simp

/-- Folding the grouping step over a concatenation of key-homogeneous
segments with pairwise-distinct keys produces exactly one group per
non-empty segment, in segment order. -/
theorem foldl_groupPush_segs {κ α β : Type} [BEq κ] [LawfulBEq κ]
    (key : α → κ) (val : α → β) (segs : List (κ × List α))
    (acc : List (κ × List β))
    (hkey : ∀ p ∈ segs, ∀ a ∈ p.2, key a = p.1)
    (hdisj : ∀ p ∈ segs, ∀ q ∈ acc, q.1 ≠ p.1)
    (hnds : (segs.map Prod.fst).Nodup) :
    (segs.flatMap Prod.snd).foldl (fun m a => jsGroupPush m (key a) (val a)) acc =
      acc ++ (segs.filter (fun p => !p.2.isEmpty)).map
        (fun p => (p.1, p.2.map val)) := by
  induction segs generalizing acc with
  | nil => simp
  | cons seg rest ih =>
    obtain ⟨k, items⟩ := seg
    have hnd2 : (k :: rest.map Prod.fst).Nodup := by
      simpa [List.map_cons] using hnds
    have hndr : (rest.map Prod.fst).Nodup := hnd2.of_cons
    have hknotr : ∀ p ∈ rest, p.1 ≠ k := by
      intro p hp he
      exact (List.nodup_cons.mp hnd2).1 (he ▸ List.mem_map_of_mem Prod.fst hp)
    have hkeyr : ∀ p ∈ rest, ∀ a ∈ p.2, key a = p.1 :=
      fun p hp => hkey p (List.mem_cons_of_mem _ hp)
    rw [List.flatMap_cons, List.foldl_append]
    cases items with
    | nil =>
      simp only [List.foldl_nil]
      rw [ih acc hkeyr (fun p hp q hq => hdisj p (List.mem_cons_of_mem _ hp) q hq) hndr]
      simp
    | cons a tl =>
      have hkeys : ∀ x ∈ a :: tl, key x = k :=
        fun x hx => hkey (k, a :: tl) (List.mem_cons_self _ _) x hx
      have hfresh : ∀ q ∈ acc, q.1 ≠ k :=
        fun q hq => hdisj (k, a :: tl) (List.mem_cons_self _ _) q hq
      have hstep : (a :: tl).foldl (fun m x => jsGroupPush m (key x) (val x)) acc =
          acc ++ [(k, (a :: tl).map val)] := by
        rw [List.foldl_cons, hkeys a (List.mem_cons_self a tl),
          jsGroupPush_fresh acc k (val a) hfresh]
        rw [foldl_groupPush_run key val tl k acc [val a] hfresh
          (fun b hb => hkeys b (List.mem_cons_of_mem a hb))]
        simp
      rw [hstep]
      rw [ih (acc ++ [(k, (a :: tl).map val)]) hkeyr ?_ hndr]
      · simp
      · intro p hp q hq
        rcases List.mem_append.mp hq with h | h
        · exact hdisj p (List.mem_cons_of_mem _ hp) q h
        · rw [List.mem_singleton.mp h]
          exact fun he => hknotr p hp he.symm

theorem find_assoc_nodup {κ β : Type} [BEq κ] [LawfulBEq κ]
    (l : List (κ × β)) (k : κ) (v : β)
    (hnd : (l.map Prod.fst).Nodup) (hm : (k, v) ∈ l) :
    l.find? (fun p => p.1 == k) = some (k, v) := by
  induction l with
  | nil => cases hm
  | cons p rest ih =>
    have hnd2 : (p.1 :: rest.map Prod.fst).Nodup := by
      simpa [List.map_cons] using hnd
    rcases List.mem_cons.mp hm with h | h
    · rw [← h]
      exact List.find?_cons_of_pos rest (by simp)
    · have hpk : (p.1 == k) = false := by
        have : k ∈ rest.map Prod.fst :=
          List.mem_map.mpr ⟨(k, v), h, rfl⟩
        have hne : p.1 ≠ k := fun he => (List.nodup_cons.mp hnd2).1 (he ▸ this)
        simpa using hne
      rw [List.find?_cons_of_neg rest (by simp [hpk])]
      exact ih hnd2.of_cons h

theorem jsMapGet_segs {κ α β : Type} [BEq κ] [LawfulBEq κ]
    (segs : List (κ × List α)) (val : α → β) (k : κ) (items : List α)
    (hnd : (segs.map Prod.fst).Nodup) (hm : (k, items) ∈ segs) :
    (jsMapGet ((segs.filter (fun p => !p.2.isEmpty)).map
        (fun p => (p.1, p.2.map val))) k).getD [] = items.map val := by
  have huniq : ∀ q ∈ segs, q.1 = k → q = (k, items) := by
    intro q hq he
    exact List.inj_on_of_nodup_map hnd hq hm (by simp [he])
  cases items with
  | nil =>
    have hnone : ((segs.filter (fun p => !p.2.isEmpty)).map
        (fun p => (p.1, p.2.map val))).find? (fun p => p.1 == k) = none := by
      rw [List.find?_eq_none]
      intro x hx hbeq
      obtain ⟨p, hp, he⟩ := List.mem_map.mp hx
      have hpm : p ∈ segs := (List.mem_filter.mp hp).1
      have hpe : (!p.2.isEmpty) = true := (List.mem_filter.mp hp).2
      have hx1 : x.1 = p.1 := by rw [← he]
      have hpk : p.1 = k := by
        have : (x.1 == k) = true := hbeq
        rw [hx1] at this
        simpa using this
      have := huniq p hpm hpk
      rw [this] at hpe
      simp at hpe
    simp [jsMapGet, hnone]
  | cons a tl =>
    have hmem2 : (k, (a :: tl).map val) ∈
        (segs.filter (fun p => !p.2.isEmpty)).map (fun p => (p.1, p.2.map val)) :=
      List.mem_map.mpr ⟨(k, a :: tl), List.mem_filter.mpr ⟨hm, by simp⟩, rfl⟩
    have hfst : ((segs.filter (fun p => !p.2.isEmpty)).map
        (fun p => (p.1, p.2.map val))).map Prod.fst =
        (segs.filter (fun p => !p.2.isEmpty)).map Prod.fst := by
      rw [List.map_map]
      rfl
    have hndf : (((segs.filter (fun p => !p.2.isEmpty)).map
        (fun p => (p.1, p.2.map val))).map Prod.fst).Nodup := by
      rw [hfst]
      exact List.Nodup.sublist ((List.filter_sublist segs).map Prod.fst) hnd
    rw [jsMapGet, find_assoc_nodup _ k ((a :: tl).map val) hndf hmem2]
    rfl

theorem jsSetDedup_go {α : Type} [BEq α] [LawfulBEq α] (l : List α) :
    ∀ acc : List α, (∀ a ∈ l, a ∉ acc) → l.Nodup →
    l.foldl (fun acc a => if acc.contains a then acc else acc ++ [a]) acc =
      acc ++ l := by
  induction l with
  | nil => intro acc _ _; simp
  | cons a rest ih =>
    intro acc hdisj hnd
    have hc : acc.contains a = false := by
      simpa using hdisj a (List.mem_cons_self a rest)
    rw [List.foldl_cons]
    simp only [hc]
    rw [if_neg (by simp [hc])]
    rw [ih (acc ++ [a]) ?_ hnd.of_cons]
    · simp
    · intro b hb hmem
      rcases List.mem_append.mp hmem with h | h
      · exact hdisj b (List.mem_cons_of_mem a hb) h
      · have hba : b = a := List.mem_singleton.mp h
        exact (List.nodup_cons.mp hnd).1 (hba ▸ hb)

theorem jsSetDedup_self {α : Type} [BEq α] [LawfulBEq α] (l : List α)
    (h : l.Nodup) : jsSetDedup l = l := by
  have := jsSetDedup_go l [] (by intro a _ hmem; cases hmem) h
  simpa [jsSetDedup] using this

theorem filterMapSome {α : Type} {f : α → Option α} {l : List α}
    (h : ∀ a ∈ l, f a = some a) : l.filterMap f = l := by
  induction l with
  | nil => rfl
  | cons a rest ih =>
    rw [List.filterMap_cons, h a (List.mem_cons_self a rest),
      ih (fun b hb => h b (List.mem_cons_of_mem a hb))]

theorem Rec_set_client_id (r : Rec) (v : Option String)
    (h : r.client_id = v) : ({ r with client_id := v } : Rec) = r := by
  cases r
  cases h
  rfl

theorem Rec_set_case_id (r : Rec) (v : Option String)
    (h : r.case_id = v) : ({ r with case_id := v } : Rec) = r := by
  cases r
  cases h
  rfl

theorem Rec_set_stage_id (r : Rec) (v : Option String)
    (h : r.stage_id = v) : ({ r with stage_id := v } : Rec) = r := by
  cases r
  cases h
  rfl

theorem Rec_set_invoice_id (r : Rec) (v : Option String)
    (h : r.invoice_id = v) : ({ r with invoice_id := v } : Rec) = r := by
  cases r
  cases h
  rfl

theorem foldl_map_congr {α α2 β : Type} (f : α → α2) (l : List α)
    (g : β → α2 → β) (g2 : β → α → β) (init : β)
    (h : ∀ b, ∀ a ∈ l, g b (f a) = g2 b a) :
    (l.map f).foldl g init = l.foldl g2 init := by
  rw [List.foldl_map]
  exact foldlCongrMem h

/-- Under consistent foreign keys, the foreign-key injection of
`flattenData` changes nothing, so the flat tables are plain projections of
the tree. -/
theorem flattenData_eq (data : AppData) (h : WellFormedTree data) :
    flattenData data =
      { clients := data.clients.map (fun c => c.row)
        cases := (allCases data).map (fun cs => cs.row)
        stages := (allStages data).map (fun st => st.row)
        sessions := allSessions data
        admin_tasks := data.adminTasks
        appointments := data.appointments
        accounting_entries := data.accountingEntries
        assistants := data.assistants.map (fun n => { name := some n })
        invoices := data.invoices.map (fun inv => inv.row)
        invoice_items := allItems data
        case_documents := data.documents
        profiles := data.profiles
        site_finances := data.siteFinances } := by
  have hcasesTag : data.clients.flatMap (fun c => c.cases.map
      (fun cs => { cs with row := { cs.row with client_id := c.row.id } })) =
      allCases data := by
    unfold allCases
    apply List.flatMap_congr
    intro c hc
    conv_rhs => rw [← List.map_id c.cases]
    apply List.map_congr_left
    intro cs hcs
    rw [Rec_set_client_id cs.row c.row.id (h.fkCases c hc cs hcs)]
    rfl
  have hstagesTag : (allCases data).flatMap (fun cs => cs.stages.map
      (fun st => { st with row := { st.row with case_id := cs.row.id } })) =
      allStages data := by
    unfold allStages
    apply List.flatMap_congr
    intro cs hcs
    conv_rhs => rw [← List.map_id cs.stages]
    apply List.map_congr_left
    intro st hst
    rw [Rec_set_case_id st.row cs.row.id (h.fkStages cs hcs st hst)]
    rfl
  have hsessionsTag : (allStages data).flatMap (fun st => st.sessions.map
      (fun s => { s with stage_id := st.row.id })) = allSessions data := by
    unfold allSessions
    apply List.flatMap_congr
    intro st hst
    conv_rhs => rw [← List.map_id st.sessions]
    apply List.map_congr_left
    intro s hs
    rw [Rec_set_stage_id s st.row.id (h.fkSessions st hst s hs)]
    rfl
  have hitemsTag : data.invoices.flatMap (fun inv => inv.items.map
      (fun it => { it with invoice_id := inv.row.id })) = allItems data := by
    unfold allItems
    apply List.flatMap_congr
    intro inv hinv
    conv_rhs => rw [← List.map_id inv.items]
    apply List.map_congr_left
    intro it hit
    rw [Rec_set_invoice_id it inv.row.id (h.fkItems inv hinv it hit)]
    rfl
  simp only [flattenData]
  rw [hcasesTag, hstagesTag, hsessionsTag, hitemsTag]

theorem sessionMap_lookup (data : AppData) (h : WellFormedTree data)
    (st : Stage) (hst : st ∈ allStages data) :
    (jsMapGet (sessionMapOf (flattenData data)) st.row.id).getD [] =
      st.sessions := by
  have hsegs_nd : (((allStages data).map
      (fun s2 => (s2.row.id, s2.sessions))).map Prod.fst).Nodup := by
    rw [List.map_map]
    exact h.ndStages
  have hsm : sessionMapOf (flattenData data) =
      (((allStages data).map (fun s2 => (s2.row.id, s2.sessions))).filter
        (fun p => !p.2.isEmpty)).map (fun p => (p.1, p.2.map id)) := by
    unfold sessionMapOf
    rw [show (flattenData data).sessions = allSessions data from by
      rw [flattenData_eq data h]]
    rw [show allSessions data =
        ((allStages data).map (fun s2 => (s2.row.id, s2.sessions))).flatMap
          Prod.snd from by rw [List.flatMap_map]; rfl]
    refine foldl_groupPush_segs (fun s => s.stage_id) id _ [] ?_ ?_ hsegs_nd
    · intro p hp a ha
      obtain ⟨st2, hst2, he⟩ := List.mem_map.mp hp
      rw [← he] at ha ⊢
      exact h.fkSessions st2 hst2 a ha
    · intro p _ q hq
      cases hq
  rw [hsm]
  have := jsMapGet_segs ((allStages data).map (fun s2 => (s2.row.id, s2.sessions)))
    id st.row.id st.sessions hsegs_nd (List.mem_map.mpr ⟨st, hst, rfl⟩)
  simpa using this

theorem stageMap_lookup (data : AppData) (h : WellFormedTree data)
    (cs : Case) (hcs : cs ∈ allCases data) :
    (jsMapGet (stageMapOf (flattenData data)) cs.row.id).getD [] =
      cs.stages := by
  have hsegs_nd : (((allCases data).map
      (fun c2 => (c2.row.id, c2.stages))).map Prod.fst).Nodup := by
    rw [List.map_map]
    exact h.ndCases
  have hsm : stageMapOf (flattenData data) =
      (((allCases data).map (fun c2 => (c2.row.id, c2.stages))).filter
        (fun p => !p.2.isEmpty)).map (fun p => (p.1, p.2.map id)) := by
    unfold stageMapOf
    rw [show (flattenData data).stages =
        (allStages data).map (fun st => st.row) from by
      rw [flattenData_eq data h]]
    rw [foldl_map_congr (fun st => st.row) (allStages data) _
      (fun m st2 => jsGroupPush m st2.row.case_id st2) [] ?_]
    · rw [show allStages data =
          ((allCases data).map (fun c2 => (c2.row.id, c2.stages))).flatMap
            Prod.snd from by rw [List.flatMap_map]; rfl]
      refine foldl_groupPush_segs (fun st2 => st2.row.case_id) id _ [] ?_ ?_ hsegs_nd
      · intro p hp a ha
        obtain ⟨c2, hc2, he⟩ := List.mem_map.mp hp
        rw [← he] at ha ⊢
        exact h.fkStages c2 hc2 a ha
      · intro p _ q hq
        cases hq
    · intro m st2 hst2
      dsimp only
      rw [sessionMap_lookup data h st2 hst2]
  rw [hsm]
  have := jsMapGet_segs ((allCases data).map (fun c2 => (c2.row.id, c2.stages)))
    id cs.row.id cs.stages hsegs_nd (List.mem_map.mpr ⟨cs, hcs, rfl⟩)
  simpa using this

theorem caseMap_lookup (data : AppData) (h : WellFormedTree data)
    (c : Client) (hc : c ∈ data.clients) :
    (jsMapGet (caseMapOf (flattenData data)) c.row.id).getD [] = c.cases := by
  have hsegs_nd : ((data.clients.map
      (fun c2 => (c2.row.id, c2.cases))).map Prod.fst).Nodup := by
    rw [List.map_map]
    exact h.ndClients
  have hsm : caseMapOf (flattenData data) =
      ((data.clients.map (fun c2 => (c2.row.id, c2.cases))).filter
        (fun p => !p.2.isEmpty)).map (fun p => (p.1, p.2.map id)) := by
    unfold caseMapOf
    rw [show (flattenData data).cases =
        (allCases data).map (fun cs => cs.row) from by
      rw [flattenData_eq data h]]
    rw [foldl_map_congr (fun cs => cs.row) (allCases data) _
      (fun m cs2 => jsGroupPush m cs2.row.client_id cs2) [] ?_]
    · rw [show allCases data =
          (data.clients.map (fun c2 => (c2.row.id, c2.cases))).flatMap
            Prod.snd from by rw [List.flatMap_map]; rfl]
      refine foldl_groupPush_segs (fun cs2 => cs2.row.client_id) id _ [] ?_ ?_ hsegs_nd
      · intro p hp a ha
        obtain ⟨c2, hc2, he⟩ := List.mem_map.mp hp
        rw [← he] at ha ⊢
        exact h.fkCases c2 hc2 a ha
      · intro p _ q hq
        cases hq
    · intro m cs2 hcs2
      dsimp only
      rw [stageMap_lookup data h cs2 hcs2]
  rw [hsm]
  have := jsMapGet_segs (data.clients.map (fun c2 => (c2.row.id, c2.cases)))
    id c.row.id c.cases hsegs_nd (List.mem_map.mpr ⟨c, hc, rfl⟩)
  simpa using this

theorem invoiceItemMap_lookup (data : AppData) (h : WellFormedTree data)
    (inv : Invoice) (hinv : inv ∈ data.invoices) :
    (jsMapGet (invoiceItemMapOf (flattenData data)) inv.row.id).getD [] =
      inv.items := by
  have hsegs_nd : ((data.invoices.map
      (fun i2 => (i2.row.id, i2.items))).map Prod.fst).Nodup := by
    rw [List.map_map]
    exact h.ndInvoices
  have hsm : invoiceItemMapOf (flattenData data) =
      ((data.invoices.map (fun i2 => (i2.row.id, i2.items))).filter
        (fun p => !p.2.isEmpty)).map (fun p => (p.1, p.2.map id)) := by
    unfold invoiceItemMapOf
    rw [show (flattenData data).invoice_items = allItems data from by
      rw [flattenData_eq data h]]
    rw [show allItems data =
        (data.invoices.map (fun i2 => (i2.row.id, i2.items))).flatMap
          Prod.snd from by rw [List.flatMap_map]; rfl]
    refine foldl_groupPush_segs (fun it => it.invoice_id) id _ [] ?_ ?_ hsegs_nd
    · intro p hp a ha
      obtain ⟨i2, hi2, he⟩ := List.mem_map.mp hp
      rw [← he] at ha ⊢
      exact h.fkItems i2 hi2 a ha
    · intro p _ q hq
      cases hq
  rw [hsm]
  have := jsMapGet_segs (data.invoices.map (fun i2 => (i2.row.id, i2.items)))
    id inv.row.id inv.items hsegs_nd (List.mem_map.mpr ⟨inv, hinv, rfl⟩)
  simpa using this

/-- C5: reconstructing the flattened record set of a well-formed nested
tree (consistent foreign keys, unique non-empty keys) yields the original
tree: `constructData (flattenData tree) = tree`. -/
theorem construct_flatten_id (data : AppData) (h : WellFormedTree data) :
    constructData (flattenData data) = data := by
  have hclients : (constructData (flattenData data)).clients = data.clients := by
    show (flattenData data).clients.map
      (fun c => { row := c,
                  cases := (jsMapGet (caseMapOf (flattenData data)) c.id).getD [] }) =
      data.clients
    rw [show (flattenData data).clients = data.clients.map (fun c => c.row) from by
      rw [flattenData_eq data h]]
    rw [List.map_map]
    conv_rhs => rw [← List.map_id data.clients]
    apply List.map_congr_left
    intro c hc
    show ({ row := c.row,
            cases := (jsMapGet (caseMapOf (flattenData data)) c.row.id).getD [] } :
        Client) = id c
    rw [caseMap_lookup data h c hc]
    rfl
  have hinvoices : (constructData (flattenData data)).invoices = data.invoices := by
    show (flattenData data).invoices.map
      (fun inv => { row := inv,
                    items := (jsMapGet (invoiceItemMapOf (flattenData data)) inv.id).getD [] }) =
      data.invoices
    rw [show (flattenData data).invoices = data.invoices.map (fun i => i.row) from by
      rw [flattenData_eq data h]]
    rw [List.map_map]
    conv_rhs => rw [← List.map_id data.invoices]
    apply List.map_congr_left
    intro inv hinv
    show ({ row := inv.row,
            items := (jsMapGet (invoiceItemMapOf (flattenData data)) inv.row.id).getD [] } :
        Invoice) = id inv
    rw [invoiceItemMap_lookup data h inv hinv]
    rfl
  have hassist : (constructData (flattenData data)).assistants = data.assistants := by
    show (jsSetDedup ((flattenData data).assistants.map (fun a => a.name))).filterMap
      (fun o => match o with
        | some s => if s = "" then none else some s
        | none => none) = data.assistants
    rw [show (flattenData data).assistants =
        data.assistants.map (fun n => ({ name := some n } : Rec)) from by
      rw [flattenData_eq data h]]
    rw [List.map_map]
    show (jsSetDedup (data.assistants.map (fun n => (some n : Option String)))).filterMap
      (fun o => match o with
        | some s => if s = "" then none else some s
        | none => none) = data.assistants
    rw [jsSetDedup_self _ (List.Nodup.map (Option.some_injective String) h.ndAssistants)]
    rw [List.filterMap_map]
    apply filterMapSome
    intro n hn
    show (if n = "" then none else some n) = some n
    rw [if_neg (h.keyAssistants n hn)]
  have htasks : (constructData (flattenData data)).adminTasks = data.adminTasks := by
    show (flattenData data).admin_tasks = data.adminTasks
    rw [flattenData_eq data h]
  have happts : (constructData (flattenData data)).appointments = data.appointments := by
    show (flattenData data).appointments = data.appointments
    rw [flattenData_eq data h]
  have haccs : (constructData (flattenData data)).accountingEntries =
      data.accountingEntries := by
    show (flattenData data).accounting_entries = data.accountingEntries
    rw [flattenData_eq data h]
  have hdocs : (constructData (flattenData data)).documents = data.documents := by
    show (flattenData data).case_documents = data.documents
    rw [flattenData_eq data h]
  have hprofs : (constructData (flattenData data)).profiles = data.profiles := by
    show (flattenData data).profiles = data.profiles
    rw [flattenData_eq data h]
  have hsfs : (constructData (flattenData data)).siteFinances = data.siteFinances := by
    show (flattenData data).site_finances = data.siteFinances
    rw [flattenData_eq data h]
  have hx : constructData (flattenData data) = AppData.mk
      (constructData (flattenData data)).clients
      (constructData (flattenData data)).adminTasks
      (constructData (flattenData data)).appointments
      (constructData (flattenData data)).accountingEntries
      (constructData (flattenData data)).invoices
      (constructData (flattenData data)).assistants
      (constructData (flattenData data)).documents
      (constructData (flattenData data)).profiles
      (constructData (flattenData data)).siteFinances := rfl
  rw [hx, hclients, htasks, happts, haccs, hinvoices, hassist, hdocs, hprofs, hsfs]

/-- Witness for C5: the round trip is the identity on `sampleTree`. -/
theorem construct_flatten_id_witness :
    constructData (flattenData sampleTree) = sampleTree :=
  construct_flatten_id sampleTree (by constructor <;> decide)

/-- C6: in the upsert phase, a child record whose parent id is not in the
pushed write set is excluded from the upsert batch of its table: a case without
its client, a stage without its case, a session without its stage, an
invoice item without its invoice, a case document without its case. -/
theorem upsert_orphans_excluded (data : FlatData) :
    (∀ c, ¬(data.clients.map (fun x => x.id)).contains c.client_id = true →
      c ∉ (upsertBatches data).cases) ∧
    (∀ s, ¬(data.cases.map (fun x => x.id)).contains s.case_id = true →
      s ∉ (upsertBatches data).stages) ∧
    (∀ s, ¬(data.stages.map (fun x => x.id)).contains s.stage_id = true →
      s ∉ (upsertBatches data).sessions) ∧
    (∀ i, ¬(data.invoices.map (fun x => x.id)).contains i.invoice_id = true →
      i ∉ (upsertBatches data).invoice_items) ∧
    (∀ d, ¬(data.cases.map (fun x => x.id)).contains d.caseId = true →
      d ∉ (upsertBatches data).case_documents) := by
  refine ⟨?_, ?_, ?_, ?_, ?_⟩ <;>
    · intro x hx hmem
      exact hx (List.mem_filter.mp hmem).2

/-- Witness for C6: a case whose `client_id` names no pushed client is not
in the cases batch. -/
theorem upsert_orphans_excluded_witness :
    ¬(((⟨[⟨some "c1", none, none, none, none, none, none, none, none, 0⟩],
        [⟨some "k1", none, none, some "cX", none, none, none, none, none, 0⟩],
        [], [], [], [], [], [], [], [], [], [], []⟩ :
        FlatData)).clients.map (fun x => x.id)).contains
      (some "cX") = true ∧
    (⟨some "k1", none, none, some "cX", none, none, none, none, none, 0⟩ : Rec) ∉
      (upsertBatches
        ⟨[⟨some "c1", none, none, none, none, none, none, none, none, 0⟩],
         [⟨some "k1", none, none, some "cX", none, none, none, none, none, 0⟩],
         [], [], [], [], [], [], [], [], [], [], []⟩).cases := by
  refine ⟨by decide, ?_⟩
  exact (upsert_orphans_excluded
    ⟨[⟨some "c1", none, none, none, none, none, none, none, none, 0⟩],
     [⟨some "k1", none, none, some "cX", none, none, none, none, none, 0⟩],
     [], [], [], [], [], [], [], [], [], [], []⟩).1
    ⟨some "k1", none, none, some "cX", none, none, none, none, none, 0⟩
    (by decide)

theorem deleteLoop_no_err (env : RemoteEnv) (d : FlatData) (L : List String)
    (hok : ∀ t ∈ L, env.deleteError t = none) :
    deleteLoop env d L = (L.filter (fun t => !(d.tblByName t).isEmpty), none) := by
  induction L with
  | nil => rfl
  | cons t rest ih =>
    by_cases he : (d.tblByName t).isEmpty
    · rw [deleteLoop]
      simp only [he, if_pos]
      rw [ih (fun t2 ht2 => hok t2 (List.mem_cons_of_mem t ht2))]
      simp [List.filter_cons, he]
    · rw [deleteLoop]
      rw [if_neg he, hok t (List.mem_cons_self t rest)]
      rw [ih (fun t2 ht2 => hok t2 (List.mem_cons_of_mem t ht2))]
      simp [List.filter_cons, he]

/-- C7: pending deletions are pushed table-by-table in exactly the fixed
children-before-parents order — case documents, invoice items, sessions,
stages, cases, invoices, admin tasks, appointments, accounting entries,
assistants, clients, site finances, profiles — each table with a non-empty
pending list, in that order (stated for a run whose remote deletes all
succeed, so the whole sequence is traversed). -/
theorem delete_push_order (env : RemoteEnv) (d : FlatData)
    (hok : ∀ t, env.deleteError t = none) :
    deleteDataRun env d =
      ((["case_documents", "invoice_items", "sessions", "stages", "cases",
         "invoices", "admin_tasks", "appointments", "accounting_entries",
         "assistants", "clients", "site_finances", "profiles"]).filter
          (fun t => !(d.tblByName t).isEmpty), none) := by
  unfold deleteDataRun deletionOrder
  exact deleteLoop_no_err env d _ (fun t _ => hok t)

/-- Witness for C7: with pending sessions, cases and clients, the executed
order is sessions, then cases, then clients. -/
theorem delete_push_order_witness :
    deleteDataRun
      { schemaSuccess := true, fetchData := Except.ok {},
        fetchDeletions := Except.ok [], deleteError := fun _ => none,
        upsertResult := Except.ok {} }
      (flatDeletesOf { clients := ["c1"], cases := ["k1"], sessions := ["x1"] }) =
      (["sessions", "cases", "clients"], none) := by
  have h := delete_push_order
    { schemaSuccess := true, fetchData := Except.ok {},
      fetchDeletions := Except.ok [], deleteError := fun _ => none,
      upsertResult := Except.ok {} }
    (flatDeletesOf { clients := ["c1"], cases := ["k1"], sessions := ["x1"] })
    (fun _ => rfl)
  rw [h]
  decide

theorem syncMergePhase_merged_get (lf rf : FlatData) (rd : List SyncDeletion)
    (ids : DeletedIds) (t : Tbl) :
    (syncMergePhase lf rf rd ids).mergedFlat.get t =
      (mergeItems ((applyDeletionsToLocal lf rd).get t) (rf.get t)
        (deletedKeysOf rd ids) t.tblName).merged := by
  cases t <;> rfl

theorem syncMergePhase_upserts_get (lf rf : FlatData) (rd : List SyncDeletion)
    (ids : DeletedIds) (t : Tbl) :
    (syncMergePhase lf rf rd ids).flatUpserts.get t =
      (mergeItems ((applyDeletionsToLocal lf rd).get t) (rf.get t)
        (deletedKeysOf rd ids) t.tblName).toUpsert := by
  cases t <;> rfl

theorem deletedKeys_contains_remote (rd : List SyncDeletion) (ids : DeletedIds)
    (d : SyncDeletion) (hd : d ∈ rd) :
    (deletedKeysOf rd ids).contains (d.table_name ++ ":" ++ d.record_id) = true := by
  have h1 : (d.table_name ++ ":" ++ d.record_id) ∈
      rd.map (fun d2 => d2.table_name ++ ":" ++ d2.record_id) :=
    List.mem_map_of_mem _ hd
  have hmem : (d.table_name ++ ":" ++ d.record_id) ∈ deletedKeysOf rd ids := by
    unfold deletedKeysOf
    repeat apply List.mem_append_left
    exact h1
  simpa using hmem

theorem foldl_jsMapSet_key (l : List Rec) :
    ∀ (m0 : List (Option String × Rec)), (∀ p ∈ m0, jsId p.2 = p.1) →
    ∀ p ∈ l.foldl (fun m item => jsMapSet m (jsId item) item) m0,
      jsId p.2 = p.1 := by
  induction l with
  | nil => intro m0 h p hp; exact h p hp
  | cons a rest ih =>
    intro m0 h p hp
    rw [List.foldl_cons] at hp
    refine ih (jsMapSet m0 (jsId a) a) ?_ p hp
    intro q hq
    rcases mem_jsMapSet hq with h2 | h2
    · exact h q h2
    · rw [h2]

theorem upsertedMapOf_key (up : FlatData) :
    ∀ p ∈ upsertedMapOf up, jsId p.2 = p.1 := by
  unfold upsertedMapOf
  exact foldl_jsMapSet_key _ [] (by intro p hp; cases hp)

theorem echoTable_pk (um : List (Option String × Rec))
    (hum : ∀ p ∈ um, jsId p.2 = p.1) (items : List Rec) :
    ∀ x ∈ echoTable um items, ∃ item ∈ items, getPk x = getPk item := by
  intro x hx
  obtain ⟨item, hit, he⟩ := List.mem_map.mp hx
  refine ⟨item, hit, ?_⟩
  rw [← he]
  cases hg : jsMapGet um (jsId item) with
  | none => simp
  | some u =>
    simp only [Option.getD_some]
    unfold jsMapGet at hg
    cases hf : um.find? (fun p => p.1 == jsId item) with
    | none => rw [hf] at hg; cases hg
    | some p0 =>
      rw [hf] at hg
      have hu : u = p0.2 := by simpa using hg.symm
      have hkey : p0.1 = jsId item := by simpa using List.find?_some hf
      have hid := hum p0 (List.mem_of_find?_eq_some hf)
      rw [hu]
      unfold getPk
      rw [hid, hkey]

theorem applyServerEcho_get (M up : FlatData) (t : Tbl) :
    (applyServerEcho M up).get t = echoTable (upsertedMapOf up) (M.get t) := by
  cases t <;> rfl

theorem publishedFlat_cases (env : RemoteEnv) (cs : SyncStatus)
    (al onl hu : Bool) (localData : AppData) (ids : DeletedIds) :
    (manualSyncModel env cs al onl hu localData ids).publishedFlat = none ∨
    ∃ remoteFlat upserted,
      env.fetchData = Except.ok remoteFlat ∧
      env.upsertResult = Except.ok upserted ∧
      (manualSyncModel env cs al onl hu localData ids).publishedFlat =
        some (applyServerEcho
          (syncMergePhase (flattenData localData) remoteFlat
            (match env.fetchDeletions with
             | Except.ok ds => ds
             | Except.error _ => []) ids).mergedFlat upserted) := by
  unfold manualSyncModel
  split
  · exact Or.inl rfl
  · split
    · exact Or.inl rfl
    · split
      · split
        · exact Or.inl rfl
        · split
          · exact Or.inl rfl
          · exact Or.inl rfl
      · split
        · exact Or.inl rfl
        · rename_i remoteFlat hfetch
          dsimp only
          split
          · exact Or.inl rfl
          · split
            · exact Or.inl rfl
            · rename_i upserted hup
              exact Or.inr ⟨remoteFlat, upserted, hfetch, hup, rfl⟩

/-- C2: a local record matched by a remote tombstone whose deletion time
is less than 2 s after the `updated_at` of the record (absent `updated_at`
being epoch) is absent from the merged result a successful sync cycle
publishes. -/
theorem sync_tombstone_purged (env : RemoteEnv) (cs : SyncStatus)
    (al onl hu : Bool) (localData : AppData) (ids : DeletedIds)
    (t : Tbl) (r : Rec) (d : SyncDeletion) (k : String)
    (rd : List SyncDeletion)
    (hfd : env.fetchDeletions = Except.ok rd)
    (hr : r ∈ (flattenData localData).get t)
    (hk : jsId r = some k)
    (hd : d ∈ rd) (hdt : d.table_name = t.tblName) (hdi : d.record_id = k)
    (hts : updMs r < d.deleted_at + 2000) :
    ∀ pub, (manualSyncModel env cs al onl hu localData ids).publishedFlat =
      some pub → r ∉ pub.get t := by
  intro pub hpub hrin
  have hkc : (deletedKeysOf rd ids).contains (t.tblName ++ ":" ++ k) = true := by
    have h2 := deletedKeys_contains_remote rd ids d hd
    rw [hdt, hdi] at h2
    exact h2
  have hpk : getPk r = k := by
    unfold getPk
    rw [hk]
    rfl
  rcases publishedFlat_cases env cs al onl hu localData ids with
    hnone | ⟨rf, up, _, _, hsome⟩
  · rw [hnone] at hpub
    cases hpub
  · rw [hfd] at hsome
    dsimp only at hsome
    rw [hpub] at hsome
    have hpeq := Option.some.inj hsome
    rw [hpeq] at hrin
    rw [applyServerEcho_get] at hrin
    obtain ⟨item, hit, hpkeq⟩ := echoTable_pk _ (upsertedMapOf_key up) _ r hrin
    rw [syncMergePhase_merged_get] at hit
    have hgood := ((mergeItems_good _ _ _ _).1 item hit).2
    rw [hpk] at hpkeq
    rw [← hpkeq] at hgood
    rw [hgood] at hkc
    cases hkc

/-- Witness for C2: the cycle publishes an empty client table, without the
tombstoned record. -/
theorem sync_tombstone_purged_witness :
    c2rec ∉ (({} : FlatData)).get Tbl.clients :=
  sync_tombstone_purged c2env SyncStatus.synced false true true c2data
    initialDeletedIds Tbl.clients c2rec ⟨"clients", "a", 1000⟩ "a"
    [⟨"clients", "a", 1000⟩] rfl (by decide) rfl (by decide) rfl rfl
    (by decide) {} (by decide)

theorem foldl_jsMapSet_src (P : String → Prop) (l : List SyncDeletion)
    (hl : ∀ d ∈ l, P (d.table_name ++ ":" ++ d.record_id)) :
    ∀ m0 : List (String × Int), (∀ p ∈ m0, P p.1) →
    ∀ p ∈ l.foldl
      (fun m d => jsMapSet m (d.table_name ++ ":" ++ d.record_id) d.deleted_at)
      m0, P p.1 := by
  induction l with
  | nil => intro m0 h p hp; exact h p hp
  | cons d rest ih =>
    intro m0 h p hp
    rw [List.foldl_cons] at hp
    refine ih (fun d2 hd2 => hl d2 (List.mem_cons_of_mem d hd2)) _ ?_ p hp
    intro q hq
    rcases mem_jsMapSet hq with h2 | h2
    · exact h q h2
    · rw [h2]
      exact hl d (List.mem_cons_self d rest)

theorem deletionMapOf_keys (rd : List SyncDeletion) :
    ∀ p ∈ deletionMapOf rd,
      ∃ d ∈ rd, d.table_name ++ ":" ++ d.record_id = p.1 := by
  unfold deletionMapOf
  refine foldl_jsMapSet_src
    (fun k => ∃ d ∈ rd, d.table_name ++ ":" ++ d.record_id = k) rd ?_ [] ?_
  · intro d hd
    exact ⟨d, hd, rfl⟩
  · intro p hp
    cases hp

/-- Counterexample to C3: a local record edited ≥ 2 s after its remote
deletion (`updated_at = 5000 ≥ 1000 + 2000`) is nonetheless neither in the
merged result of the reconcile phase of the sync cycle nor marked for push —
the per-table merge drops every tombstoned key regardless of timestamps,
so the claimed resurrection never reaches the merged output. -/
theorem sync_resurrection_counterexample :
    updMs c3rec ≥ c3del.deleted_at + 2000 ∧
    c3rec ∈ (flattenData c3data).clients ∧
    c3rec ∉ (syncMergePhase (flattenData c3data) {} [c3del]
      initialDeletedIds).mergedFlat.clients ∧
    c3rec ∉ (syncMergePhase (flattenData c3data) {} [c3del]
      initialDeletedIds).flatUpserts.clients := by
  decide

/-- C3 (amended): a local record whose `updated_at` is at least 2 s past
the `deleted_at` of its tombstone does survive the tombstone purge filter
(`applyDeletionsToLocal` keeps it), but the per-table merge still excludes
its key from both the merged result and the push set, because the key is
in the deleted-key set handed to the merge; so the record is neither
present nor pushed. -/
theorem sync_resurrection_amended (localFlat remoteFlat : FlatData)
    (rd : List SyncDeletion) (ids : DeletedIds) (t : Tbl) (r : Rec)
    (k : String) (dAt : Int)
    (hr : r ∈ localFlat.get t) (hk : jsId r = some k)
    (hlook : jsMapGet (deletionMapOf rd) (t.tblName ++ ":" ++ k) = some dAt)
    (hts : ¬(updMs r < dAt + 2000)) :
    r ∈ filterItems (deletionMapOf rd) (localFlat.get t) t.tblName ∧
    (∀ x ∈ (syncMergePhase localFlat remoteFlat rd ids).mergedFlat.get t,
      getPk x ≠ k) ∧
    (∀ x ∈ (syncMergePhase localFlat remoteFlat rd ids).flatUpserts.get t,
      getPk x ≠ k) := by
  have hkc : (deletedKeysOf rd ids).contains (t.tblName ++ ":" ++ k) = true := by
    have hfind : ∃ p, (deletionMapOf rd).find?
        (fun p => p.1 == t.tblName ++ ":" ++ k) = some p := by
      unfold jsMapGet at hlook
      cases hf : (deletionMapOf rd).find?
          (fun p => p.1 == t.tblName ++ ":" ++ k) with
      | none => rw [hf] at hlook; cases hlook
      | some p0 => exact ⟨p0, rfl⟩
    obtain ⟨p0, hp0⟩ := hfind
    have hp0mem := List.mem_of_find?_eq_some hp0
    have hp0key : p0.1 = t.tblName ++ ":" ++ k := by
      simpa using List.find?_some hp0
    obtain ⟨d, hd, hdk⟩ := deletionMapOf_keys rd p0 hp0mem
    rw [hp0key] at hdk
    have h2 := deletedKeys_contains_remote rd ids d hd
    rw [hdk] at h2
    exact h2
  refine ⟨?_, ?_, ?_⟩
  · refine List.mem_filter.mpr ⟨hr, ?_⟩
    show (match jsMapGet (deletionMapOf rd)
        (t.tblName ++ ":" ++ ((jsId r).getD "undefined")) with
      | some deletedAt => !(updMs r < deletedAt + 2000)
      | none => true) = true
    rw [hk, Option.getD_some, hlook]
    simpa using hts
  · rw [syncMergePhase_merged_get]
    intro x hx he
    have h2 := ((mergeItems_good _ _ _ _).1 x hx).2
    rw [he] at h2
    rw [h2] at hkc
    cases hkc
  · rw [syncMergePhase_upserts_get]
    intro x hx he
    have h2 := ((mergeItems_good _ _ _ _).2 x hx).2
    rw [he] at h2
    rw [h2] at hkc
    cases hkc

/-- Witness for the amended C3: the concrete record of the counterexample
survives the purge filter yet its key is excluded from both outputs. -/
theorem sync_resurrection_amended_witness :
    c3rec ∈ filterItems (deletionMapOf [c3del])
      ((flattenData c3data).get Tbl.clients) Tbl.clients.tblName ∧
    c3rec ∉ (syncMergePhase (flattenData c3data) {} [c3del]
      initialDeletedIds).mergedFlat.get Tbl.clients ∧
    c3rec ∉ (syncMergePhase (flattenData c3data) {} [c3del]
      initialDeletedIds).flatUpserts.get Tbl.clients :=
  have h := sync_resurrection_amended (flattenData c3data) {} [c3del]
    initialDeletedIds Tbl.clients c3rec "a" 1000 (by decide) rfl (by decide)
    (by decide)
  ⟨h.1, fun hm => h.2.1 c3rec hm rfl, fun hm => h.2.2 c3rec hm rfl⟩

/-- C8 (amended): when the remote delete of some table fails during the
deletion push, the error thrown by `deleteDataFromSupabase` carries the
originating table (the `some (msg, tbl)` of `deleteDataRun`), the whole
sync aborts in the `error` state, the remote deletes already issued for
earlier tables stay applied (no rollback — they are in the executed
trace), and nothing is published: `onDeletionsSynced` is never invoked, so
no pending deletion ids are cleared for any table — the ids of the
already-processed tables remain pending too. -/
theorem delete_failure_keeps_pending (env : RemoteEnv) (cs : SyncStatus)
    (al onl hu : Bool) (localData : AppData) (ids : DeletedIds)
    (msg tbl : String)
    (hguard : ¬(cs = SyncStatus.syncing ∨ al = true))
    (honl : onl = true) (huser : hu = true)
    (hschema : env.schemaSuccess = true)
    (remoteFlat : FlatData) (hfetch : env.fetchData = Except.ok remoteFlat)
    (hany : flatDeletesAny (flatDeletesOf ids) = true)
    (hdel : (deleteDataRun env (flatDeletesOf ids)).2 = some (msg, tbl)) :
    manualSyncModel env cs al onl hu localData ids =
      { status := SyncStatus.error, errorMessage := some (catchMessage msg),
        publishedFlat := none, deletionsSynced := none,
        remoteDeletesExecuted := (deleteDataRun env (flatDeletesOf ids)).1 } := by
  unfold manualSyncModel
  rw [if_neg hguard, if_neg (by simp [honl, huser]), if_neg (by simp [hschema]),
    hfetch]
  dsimp only
  rw [if_pos hany, hdel]

/-- Counterexample to C8: the sessions delete is executed before the
clients delete fails, yet `onDeletionsSynced` is never invoked
(`deletionsSynced = none`), so the pending id of the already-processed
sessions table is NOT cleared, contrary to the claim. -/
theorem delete_failure_counterexample :
    (manualSyncModel c8env SyncStatus.synced false true true {}
      c8ids).remoteDeletesExecuted = ["sessions"] ∧
    (manualSyncModel c8env SyncStatus.synced false true true {}
      c8ids).deletionsSynced = none ∧
    (manualSyncModel c8env SyncStatus.synced false true true {}
      c8ids).status = SyncStatus.error := by
  decide

/-- Witness for the amended C8 at the input of the counterexample. -/
theorem delete_failure_keeps_pending_witness :
    manualSyncModel c8env SyncStatus.synced false true true {} c8ids =
      { status := SyncStatus.error, errorMessage := some (catchMessage "boom"),
        publishedFlat := none, deletionsSynced := none,
        remoteDeletesExecuted := (deleteDataRun c8env (flatDeletesOf c8ids)).1 } :=
  delete_failure_keeps_pending c8env SyncStatus.synced false true true {}
    c8ids "boom" "clients" (by decide) rfl rfl rfl {} rfl (by decide)
    (by decide)

/-- C9: when the schema probe passes but the fetch, the deletion push or
the upsert throws, the sync ends in the `error` state with a message, and
neither `onDataSynced` nor `onDeletionsSynced` is invoked — the merged
data is never published and the local snapshot (including the pending
deletion lists) is left unchanged. -/
theorem sync_failure_no_publish (env : RemoteEnv) (cs : SyncStatus)
    (al onl hu : Bool) (localData : AppData) (ids : DeletedIds)
    (hguard : ¬(cs = SyncStatus.syncing ∨ al = true))
    (honl : onl = true) (huser : hu = true)
    (hschema : env.schemaSuccess = true)
    (hfail :
      (∃ m, env.fetchData = Except.error m) ∨
      (flatDeletesAny (flatDeletesOf ids) = true ∧
        ∃ e, (deleteDataRun env (flatDeletesOf ids)).2 = some e) ∨
      (∃ m, env.upsertResult = Except.error m)) :
    (manualSyncModel env cs al onl hu localData ids).status =
      SyncStatus.error ∧
    (manualSyncModel env cs al onl hu localData ids).errorMessage.isSome =
      true ∧
    (manualSyncModel env cs al onl hu localData ids).publishedFlat = none ∧
    (manualSyncModel env cs al onl hu localData ids).deletionsSynced = none := by
  unfold manualSyncModel
  rw [if_neg hguard, if_neg (by simp [honl, huser]), if_neg (by simp [hschema])]
  rcases hfd : env.fetchData with m | remoteFlat
  · exact ⟨rfl, rfl, rfl, rfl⟩
  · dsimp only
    rcases hdel2 : (if flatDeletesAny (flatDeletesOf ids) = true then
        deleteDataRun env (flatDeletesOf ids) else ([], none)).2 with _ | e
    · rcases hup : env.upsertResult with m | upserted
      · exact ⟨rfl, rfl, rfl, rfl⟩
      · exfalso
        rcases hfail with ⟨m, hm⟩ | ⟨hany, e, he⟩ | ⟨m, hm⟩
        · rw [hfd] at hm
          cases hm
        · rw [if_pos hany, he] at hdel2
          cases hdel2
        · rw [hup] at hm
          cases hm
    · exact ⟨rfl, rfl, rfl, rfl⟩

/-- Witness for C9 at a concrete failing fetch. -/
theorem sync_failure_no_publish_witness :
    (manualSyncModel c9env SyncStatus.synced false true true {}
      initialDeletedIds).status = SyncStatus.error ∧
    (manualSyncModel c9env SyncStatus.synced false true true {}
      initialDeletedIds).errorMessage.isSome = true ∧
    (manualSyncModel c9env SyncStatus.synced false true true {}
      initialDeletedIds).publishedFlat = none ∧
    (manualSyncModel c9env SyncStatus.synced false true true {}
      initialDeletedIds).deletionsSynced = none :=
  sync_failure_no_publish c9env SyncStatus.synced false true true {}
    initialDeletedIds (by decide) rfl rfl rfl (Or.inl ⟨"boom", rfl⟩)

/-- C10: the code cannot perform the archival the claim describes.  At a
concrete failing input — two `synced` documents more than 24 hours old,
every blob removal succeeding — the sweep attempts the first removal, then
the keyless metadata `db.put` throws `DataError` and the catch aborts the
whole sweep: no document transitions to `archived` (the metadata list is
unchanged) and the removal of the second expired document is never
attempted. -/
theorem cleanup_sweep_aborts :
    cleanupCloudStorage 100000000
      [⟨"d1", 0, "p1", DocLocalState.synced, 0⟩,
       ⟨"d2", 0, "p2", DocLocalState.synced, 0⟩]
      (fun _ => RemoveOutcome.ok) =
      ⟨[⟨"d1", 0, "p1", DocLocalState.synced, 0⟩,
        ⟨"d2", 0, "p2", DocLocalState.synced, 0⟩],
       ["p1"], some "DataError"⟩ := by
  decide
